import Mathlib

/-!
Verification of the Real-Time-Tech-News-Monitoring repository.

The repository ships a React frontend (under frontend/src) and documents a
FastAPI/BERTopic backend.  The frontend components are embedded here directly
from their JavaScript source.  The backend core (pipeline, topic registry,
orchestrator) is not present in the source tree, so those parts are modelled
from the specification, as marked on each definition.

JavaScript strings are embedded as `List Char` (a sequence of characters);
`null`/`undefined` values are embedded as `Option`.
-/

/-! ## Frontend data model (from frontend/src source) -/

/-- A topic object as served by the `/topics` endpoint and consumed by
`Dashboard.js` and `TopicExplorer.js`: fields `id`, `name`, `keywords`
(a comma-separated string) and `count` are the ones the components read. -/
structure UITopic where
  id : Int
  name : String
  keywords : String
  count : Int
deriving DecidableEq

/-- The value held in the `topics` state of `Dashboard.js`: either an array of
topic objects or some non-array value (the code guards with `Array.isArray`). -/
inductive TopicsResponse where
  | arr (topics : List UITopic)
  | notArray
deriving DecidableEq

/-- `Dashboard.js` line 89:
`Array.isArray(topics) ? topics.reduce((acc, topic) => acc + topic.count, 0) : 0`. -/
def totalDocuments : TopicsResponse → Int
  | .arr ts => ts.foldl (fun acc topic => acc + topic.count) 0
  | .notArray => 0

/-- `Dashboard.js` line 90: `Array.isArray(topics) ? topics.length : 0`. -/
def uniqueTopics : TopicsResponse → Nat
  | .arr ts => ts.length
  | .notArray => 0

/-- The fallback string returned by `getSnippet` for missing content. -/
def noContentMsg : List Char := "No content available.".toList

/-- `getSnippet` from the `TopicExplorer` component embedded in `Dashboard.js`
(lines 223-227):
`if (!text) return 'No content available.';`
`return text.length > 300 ? text.substring(0, 300) + '...' : text;`
A JavaScript `null`/`undefined` argument is `none`; the empty string is also
falsy, so it takes the first branch. -/
def getSnippet (text : Option (List Char)) : List Char :=
  match text with
  | none => noContentMsg
  | some t =>
    if t = [] then noContentMsg
    else if 300 < t.length then t.take 300 ++ ("...".toList)
    else t

/-- Decimal value of a digit string. -/
def digitsVal (ds : List Char) : Nat :=
  ds.foldl (fun a c => a * 10 + (c.toNat - ('0').toNat)) 0

/-- Leading decimal digits of a character list, `none` when there are none. -/
def parseDigits (l : List Char) : Option Nat :=
  let ds := l.takeWhile (fun c => c.isDigit)
  if ds = [] then none else some (digitsVal ds)

/-- Model of the JavaScript builtin `parseInt(s)` in base 10: skip leading
whitespace, read an optional sign and then leading decimal digits; the result
is `NaN` (here `none`) when no digits are found. -/
def parseIntJS (s : List Char) : Option Int :=
  match s.dropWhile (fun c => c.isWhitespace) with
  | '-' :: rest => (parseDigits rest).map (fun n => -(n : Int))
  | '+' :: rest => (parseDigits rest).map (fun n => (n : Int))
  | other => (parseDigits other).map (fun n => (n : Int))

/-- JavaScript strict equality `a === p` between a number `a` and the result
`p` of `parseInt`: comparison with `NaN` (`none`) is always false. -/
def strictEqNum (a : Int) (p : Option Int) : Bool :=
  match p with
  | some n => a == n
  | none => false

/-- `TopicExplorer.js` line 71 (and the variant embedded in `Dashboard.js`
line 221): `topics.find(t => t.id === parseInt(selectedTopic))`. -/
def currentTopic (topics : List UITopic) (selectedTopic : List Char) : Option UITopic :=
  topics.find? (fun t => strictEqNum t.id (parseIntJS selectedTopic))

/-- `currentTopic.keywords.split(', ')` from the topic-header section. -/
def splitKeywords (k : String) : List String :=
  k.splitOn ", "

/-- The guarded topic-header section (`{currentTopic && (...)}`): it renders
the topic name heading and the keyword tags only when `currentTopic` is
defined; otherwise nothing is rendered and `keywords.split` is not evaluated. -/
def renderTopicHeader (topics : List UITopic) (selectedTopic : List Char) :
    Option (String × List String) :=
  match currentTopic topics selectedTopic with
  | some t => some (t.name, splitKeywords t.keywords)
  | none => none

/-! ## Backend core model

The backend (FastAPI `nlp_pipeline.py`, `crud.py`, `models.py`) is not part of
the source tree; every definition in this section is modelled from the spec,
as its doc comment records.  The embedding follows the spec's data model
(section 3), component contracts (section 4) and external interfaces
(section 6); configuration constants take the spec's example values. -/

/-- Modelled from the spec: the retrain trigger mode of section 4.7
(`incremental` vs `full`). -/
inductive Mode where
  | incremental
  | full
deriving DecidableEq

/-- Modelled from the spec: the error taxonomy of section 7. -/
inductive PipelineError where
  | EmbeddingError
  | InsufficientDataError
  | ClusteringError
  | RetrainInProgress
  | PersistenceError
deriving DecidableEq

/-- Modelled from the spec: the two document source types. -/
inductive SourceType where
  | article
  | video
deriving DecidableEq

/-- Modelled from the spec: the Document record of section 3.  Timestamps are
day-resolution naturals; `published_at = none` models a missing or unparseable
publish timestamp. -/
structure Document where
  id : Nat
  source_type : SourceType
  title : List Char
  full_content : List Char
  url : List Char
  published_at : Option Nat
  embedding : Option (List Int)
  topic_id : Option Nat
deriving DecidableEq

/-- Modelled from the spec: the durable Topic record of section 3.  The
`representative_cluster_signature` reconciliation aid is not materialised
because section 4.5's algorithm works from member-document overlap and
keyword overlap, both recomputed here from `docs` and `keywords`. -/
structure Topic where
  id : Nat
  name : List Char
  keywords : List (List Char)
  created_at : Nat
  document_count : Nat
deriving DecidableEq

/-- Modelled from the spec: a per-topic, per-bucket document count. -/
structure TemporalDataPoint where
  topic_id : Nat
  time_bucket : Nat
  count : Nat
deriving DecidableEq

/-- Modelled from the spec: the externally persisted state behind the
DocumentStore/TopicStore/TemporalStore interfaces of section 6. -/
structure ExternalState where
  docs : List Document
  topics : List Topic
  temporal : List TemporalDataPoint
deriving DecidableEq

/-- Fixed length of embedding vectors (section 4.1: fixed-length vectors). -/
def embedDim : Nat := 4

/-- Target reduced dimensionality (section 4.2's example constant). -/
def targetDim : Nat := 2

/-- Minimum cluster size for the density clusterer (configuration surface). -/
def minClusterSize : Nat := 2

/-- Keywords kept per topic (section 4.4's top-N). -/
def keywordCount : Nat := 10

/-- Reconciliation similarity threshold on a 0-1000 scale (section 4.5; the
spec leaves the default a policy choice, taken here as 0.6). -/
def simThreshold : Nat := 600

/-- Time-bucket granularity in seconds (section 4.6: daily buckets). -/
def bucketLen : Nat := 86400

/-- Modelled from the spec: text normalization before embedding (section 4.1
mentions input that is empty after normalization). -/
def normalizeText (t : List Char) : List Char :=
  t.filter (fun c => !(c.isWhitespace))

/-- Modelled from the spec: the deterministic embedding model.  The spec only
requires a pure, fixed-length function of the text; this stand-in hashes the
normalized text into `embedDim` components. -/
def embedVec (t : List Char) : List Int :=
  let s : Int := (normalizeText t).foldl (fun a c => a + (c.toNat : Int)) 0
  [((normalizeText t).length : Int), s, s % 97, s % 13]

/-- Modelled from the spec, section 4.1: `embed` returns one fixed-length
vector per text and fails with `EmbeddingError` on input that is empty after
normalization. -/
def embed (t : List Char) : Except PipelineError (List Int) :=
  if normalizeText t = [] then .error .EmbeddingError else .ok (embedVec t)

/-- Modelled from the spec: per-document embedding policy of section 4.7 —
incremental mode only embeds documents without an embedding, full mode
re-embeds everything; a document whose text fails to embed is skipped
(left unchanged) rather than aborting the batch (section 7). -/
def embedDoc (mode : Mode) (d : Document) : Document :=
  if mode = .incremental ∧ d.embedding.isSome then d
  else
    match embed d.full_content with
    | .ok v => { d with embedding := some v }
    | .error _ => d

/-- Modelled from the spec: the Embedding stage maps the per-document policy
over the corpus; each document is processed independently. -/
def embedStage (mode : Mode) (docs : List Document) : List Document :=
  docs.map (embedDoc mode)

/-- Documents that enter the batch for reduction/clustering: those carrying an
embedding after the Embedding stage. -/
def batchOf (docs : List Document) : List Document :=
  docs.filter (fun d => d.embedding.isSome)

/-- The embedding vector of a batch document. -/
def embOf (d : Document) : List Int := d.embedding.getD []

/-- Modelled from the spec, section 4.2: projection of one embedding to the
target dimensionality, clamping when the vector is shorter. -/
def reduceVec (v : List Int) : List Int := v.take targetDim

/-- Modelled from the spec, section 4.2: `fit_transform` reduces the full
current batch with no carried-over fit state. -/
def fit_transform (vs : List (List Int)) : List (List Int) :=
  vs.map reduceVec

/-- Fuel-driven worker for `firstOccs` (structural recursion on the fuel so
that the function evaluates by reduction; the fuel is always the list
length). -/
def firstOccsF {α : Type} [DecidableEq α] : Nat → List α → List α
  | 0, _ => []
  | _, [] => []
  | fuel + 1, a :: as => a :: firstOccsF fuel (as.filter (fun x => x != a))

/-- First occurrences of a list's elements, in order (a deterministic
deduplication used by the clusterer and aggregator). -/
def firstOccs {α : Type} [DecidableEq α] (l : List α) : List α :=
  firstOccsF l.length l

/-- Modelled from the spec, section 4.3: the density clusterer's label for one
reduced vector, given the whole batch of reduced vectors.  All-identical
vectors are the documented numerical degeneracy (`ClusteringError`), treated
as an all-noise batch; otherwise a vector in a dense group (at least
`minClusterSize` equal vectors) is labelled by the group's run-local index and
a vector in a low-density region is labelled noise (`none`). -/
def labelOfVec (rvecs : List (List Int)) (v : List Int) : Option Nat :=
  if (firstOccs rvecs).length ≤ 1 ∧ 2 ≤ rvecs.length then none
  else if minClusterSize ≤ rvecs.count v then some ((firstOccs rvecs).indexOf v)
  else none

/-- Modelled from the spec, section 4.3: `cluster` returns one label-or-noise
outcome per reduced vector, in input order. -/
def cluster (rvecs : List (List Int)) : List (Option Nat) :=
  rvecs.map (labelOfVec rvecs)

/-- Whitespace-separated words of a text (tokenisation for the labeler). -/
def wordsOf (t : List Char) : List (List Char) :=
  (t.splitOnP (fun c => c.isWhitespace)).filter (fun w => w != [])

/-- Modelled from the spec, section 4.4: document frequency of a word across
the whole corpus. -/
def docFreq (w : List Char) (corpus : List Document) : Nat :=
  corpus.countP (fun d => (wordsOf d.full_content).contains w)

/-- Modelled from the spec, section 4.4: a document-frequency-weighted
importance score — in-cluster term frequency scaled down by corpus document
frequency. -/
def kwScore (w : List Char) (mem corpus : List Document) : Nat :=
  ((mem.map (fun d => (wordsOf d.full_content).count w)).sum * 1000) / (1 + docFreq w corpus)

/-- Lexicographic comparison on character lists (deterministic tie-break for
keyword ranking). -/
def lexLeB : List Char → List Char → Bool
  | [], _ => true
  | _ :: _, [] => false
  | a :: as, b :: bs =>
    if a.toNat < b.toNat then true
    else if b.toNat < a.toNat then false
    else lexLeB as bs

/-- Modelled from the spec, section 4.4: keyword ranking — score descending,
ties broken lexicographically so that naming is reproducible. -/
def kwRank (mem corpus : List Document) (a b : List Char) : Prop :=
  kwScore b mem corpus < kwScore a mem corpus ∨
    (kwScore a mem corpus = kwScore b mem corpus ∧ lexLeB a b = true)

instance kwRankDecidable (mem corpus : List Document) : DecidableRel (kwRank mem corpus) :=
  fun a b => by unfold kwRank; infer_instance

/-- Modelled from the spec, section 4.4: ranked keywords of a cluster, top
`keywordCount` retained. -/
def topicKeywords (mem corpus : List Document) : List (List Char) :=
  let cand := firstOccs ((mem.map (fun d => wordsOf d.full_content)).flatten)
  (List.insertionSort (kwRank mem corpus) cand).take keywordCount

/-- Modelled from the spec, section 4.4: the topic name joins the top three
keywords; a degenerate empty keyword list yields a placeholder name. -/
def topicName (kws : List (List Char)) : List Char :=
  if kws = [] then ("unlabeled topic".toList)
  else List.intercalate (" ".toList) (kws.take 3)

/-- A run-local cluster together with its labeling output. -/
structure Cluster where
  label : Nat
  members : List Document
  keywords : List (List Char)
  name : List Char
deriving DecidableEq

/-- The batch documents labelled with a given cluster label. -/
def membersOf (batch : List Document) (rvecs : List (List Int)) (l : Nat) : List Document :=
  batch.filter (fun d => labelOfVec rvecs (reduceVec (embOf d)) == some l)

/-- Builds the `Cluster` record for one cluster label. -/
def mkCluster (batch : List Document) (rvecs : List (List Int)) (corpus : List Document)
    (l : Nat) : Cluster :=
  let mem := membersOf batch rvecs l
  let kws := topicKeywords mem corpus
  { label := l, members := mem, keywords := kws, name := topicName kws }

/-- The distinct cluster labels of a run, in order of first appearance. -/
def labelSet (labels : List (Option Nat)) : List Nat :=
  firstOccs (labels.filterMap id)

/-- Modelled from the spec, section 4.5: a topic's previous member set, read
from the authoritative document assignments. -/
def memberIds (docs : List Document) (tid : Nat) : List Nat :=
  (docs.filter (fun d => d.topic_id == some tid)).map (fun d => d.id)

/-- Jaccard similarity on a 0-1000 scale between two lists viewed as sets
(two empty sets count as identical). -/
def jaccard1000 {α : Type} [DecidableEq α] (a b : List α) : Nat :=
  let ua := firstOccs a
  let ub := firstOccs b
  let inter := (ua.filter (fun x => decide (x ∈ ub))).length
  let union := (ua ++ ub.filter (fun x => decide (¬ x ∈ ua))).length
  if union = 0 then 1000 else inter * 1000 / union

/-- Raw member-overlap count (the spec's tie-break key). -/
def overlapCount {α : Type} [DecidableEq α] (a b : List α) : Nat :=
  ((firstOccs a).filter (fun x => decide (x ∈ b))).length

/-- Modelled from the spec, section 4.5: similarity between a new cluster and
an existing topic — member-document overlap (Jaccard-style) combined with
keyword-set overlap, averaged on the 0-1000 scale. -/
def similarity (c : Cluster) (prevMembers : List Nat) (t : Topic) : Nat :=
  (jaccard1000 (c.members.map (fun d => d.id)) prevMembers
    + jaccard1000 c.keywords t.keywords) / 2

/-- A candidate (cluster, topic) match with its score and tie-break data. -/
structure CandPair where
  clusterLabel : Nat
  topicId : Nat
  score : Nat
  overlap : Nat
deriving DecidableEq

/-- Modelled from the spec, section 4.5: all (new cluster, existing non-dormant
topic) pairs whose similarity reaches the minimum threshold. -/
def candPairs (clusters : List Cluster) (topics : List Topic) (docs : List Document) :
    List CandPair :=
  clusters.flatMap (fun c =>
    (topics.filter (fun t => decide (0 < t.document_count))).filterMap (fun t =>
      let prev := memberIds docs t.id
      let s := similarity c prev t
      if simThreshold ≤ s then
        some { clusterLabel := c.label, topicId := t.id, score := s,
               overlap := overlapCount (c.members.map (fun d => d.id)) prev }
      else none))

/-- Modelled from the spec, section 4.5: candidate ordering — highest score
first, ties broken by larger member overlap, then by lower existing topic id. -/
def pairRank (p q : CandPair) : Prop :=
  q.score < p.score ∨
    (p.score = q.score ∧
      (q.overlap < p.overlap ∨ (p.overlap = q.overlap ∧ p.topicId ≤ q.topicId)))

instance pairRankDecidable : DecidableRel pairRank :=
  fun p q => by unfold pairRank; infer_instance

/-- Modelled from the spec, section 4.5: the greedy sweep — each cluster claims
at most one topic and vice versa, processing candidates best-first. -/
def sweep : List CandPair → List Nat → List Nat → List (Nat × Nat)
  | [], _, _ => []
  | p :: rest, takenC, takenT =>
    if p.clusterLabel ∈ takenC ∨ p.topicId ∈ takenT then sweep rest takenC takenT
    else (p.clusterLabel, p.topicId) :: sweep rest (p.clusterLabel :: takenC) (p.topicId :: takenT)

/-- Modelled from the spec, section 4.5: greedy highest-score-first matching of
clusters onto existing topics. -/
def matching (clusters : List Cluster) (topics : List Topic) (docs : List Document) :
    List (Nat × Nat) :=
  sweep (List.insertionSort pairRank (candPairs clusters topics docs)) [] []

/-- Modelled from the spec, section 4.5: a matched topic's name and keywords
are refreshed from the new labeling and its member count recomputed. -/
def refreshTopic (c : Cluster) (t : Topic) : Topic :=
  { t with name := c.name, keywords := c.keywords, document_count := c.members.length }

/-- Largest existing topic id (new ids are allocated above it). -/
def maxTopicId (topics : List Topic) : Nat :=
  (topics.map (fun t => t.id)).foldl max 0

/-- A fresh topic created for an unmatched cluster. -/
def newTopicFor (baseId : Nat) (p : Nat × Cluster) : Topic :=
  { id := baseId + 1 + p.1, name := p.2.name, keywords := p.2.keywords,
    created_at := 0, document_count := p.2.members.length }

/-- The output of reconciliation: the updated durable topic set, the cluster
label to topic id assignment, the matched pairs, and the ids that went
dormant this round. -/
structure ReconcileResult where
  topics : List Topic
  assigned : List (Nat × Nat)
  matched : List (Nat × Nat)
  dormantIds : List Nat
deriving DecidableEq

/-- Modelled from the spec, section 4.5: the update applied to one existing
topic — refreshed from its matched cluster, or made dormant
(`document_count = 0`) when no cluster claimed it this round. -/
def updateTopicWith (m : List (Nat × Nat)) (clusters : List Cluster) (t : Topic) : Topic :=
  match m.find? (fun p => p.2 == t.id) with
  | some p =>
    match clusters.find? (fun c => c.label == p.1) with
    | some c => refreshTopic c t
    | none => { t with document_count := 0 }
  | none => { t with document_count := 0 }

/-- The clusters left unmatched by the greedy matching (they create new
topics, the safe default of section 4.5). -/
def unmatchedClusters (m : List (Nat × Nat)) (clusters : List Cluster) : List Cluster :=
  clusters.filter (fun c => (m.find? (fun p => p.1 == c.label)).isNone)

/-- Modelled from the spec, section 4.5: reconciliation — matched topics are
refreshed, unmatched clusters create new topics (the safe default), and
existing topics with no matching cluster become dormant with
`document_count = 0`; no topic is ever removed. -/
def reconcile (clusters : List Cluster) (topics : List Topic) (docs : List Document) :
    ReconcileResult :=
  let m := matching clusters topics docs
  let newT := (unmatchedClusters m clusters).enum.map (newTopicFor (maxTopicId topics))
  { topics := topics.map (updateTopicWith m clusters) ++ newT,
    assigned := m ++ ((unmatchedClusters m clusters).zip newT).map (fun p => (p.1.label, p.2.id)),
    matched := m,
    dormantIds := (topics.filter (fun t => (m.find? (fun p => p.2 == t.id)).isNone)).map
      (fun t => t.id) }

/-- Modelled from the spec: re-pointing one document after reconciliation —
batch documents get the durable topic id of their cluster (noise documents get
`none`), documents skipped by the Embedding stage are left untouched. -/
def assignDoc (rvecs : List (List Int)) (assigned : List (Nat × Nat)) (d : Document) :
    Document :=
  if d.embedding.isSome then
    let tid := (labelOfVec rvecs (reduceVec (embOf d))).bind
      (fun l => (assigned.find? (fun p => p.1 == l)).map (fun p => p.2))
    { d with topic_id := tid }
  else d

/-- Modelled from the spec, section 4.6: the per-bucket counts of one topic's
current members, recomputed from scratch; documents with a missing timestamp
are excluded. -/
def seriesFor (tid : Nat) (docs : List Document) : List TemporalDataPoint :=
  let stamps := ((docs.filter (fun d => d.topic_id == some tid)).filterMap
    (fun d => d.published_at)).map (fun ts => ts / bucketLen)
  (firstOccs stamps).map (fun b => { topic_id := tid, time_bucket := b, count := stamps.count b })

/-- The ids of topics with at least one current member. -/
def activeIds (topics : List Topic) : List Nat :=
  (topics.filter (fun t => decide (0 < t.document_count))).map (fun t => t.id)

/-- Documents after the Embedding stage of a run. -/
def runDocs1 (mode : Mode) (E : ExternalState) : List Document :=
  embedStage mode E.docs

/-- The batch entering reduction/clustering in a run. -/
def runBatch (mode : Mode) (E : ExternalState) : List Document :=
  batchOf (runDocs1 mode E)

/-- The reduced vectors of a run's batch. -/
def runRvecs (mode : Mode) (E : ExternalState) : List (List Int) :=
  fit_transform ((runBatch mode E).map embOf)

/-- The clusterer's per-batch-document outcome in a run. -/
def runLabels (mode : Mode) (E : ExternalState) : List (Option Nat) :=
  cluster (runRvecs mode E)

/-- The distinct cluster labels discovered in a run. -/
def runLabelSet (mode : Mode) (E : ExternalState) : List Nat :=
  labelSet (runLabels mode E)

/-- The labelled clusters discovered in a run. -/
def runClusters (mode : Mode) (E : ExternalState) : List Cluster :=
  (runLabelSet mode E).map (mkCluster (runBatch mode E) (runRvecs mode E) (runDocs1 mode E))

/-- The greedy matching computed in a run. -/
def runMatching (mode : Mode) (E : ExternalState) : List (Nat × Nat) :=
  matching (runClusters mode E) E.topics (runDocs1 mode E)

/-- The durable topic id a cluster label was assigned to (0 when the label was
not assigned; reconciliation assigns every cluster label of a run). -/
def lookupTid (assigned : List (Nat × Nat)) (l : Nat) : Nat :=
  ((assigned.find? (fun p => p.1 == l)).map (fun p => p.2)).getD 0

/-- The reconciliation outcome of a run. -/
def runReconcile (mode : Mode) (E : ExternalState) : ReconcileResult :=
  reconcile (runClusters mode E) E.topics (runDocs1 mode E)

/-- Documents with their post-reconciliation topic assignments. -/
def runDocs2 (mode : Mode) (E : ExternalState) : List Document :=
  (runDocs1 mode E).map (assignDoc (runRvecs mode E) (runReconcile mode E).assigned)

/-- The ids of batch documents the clusterer labelled noise in a run. -/
def runNoiseIds (mode : Mode) (E : ExternalState) : List Nat :=
  ((runBatch mode E).filter (fun d =>
    (labelOfVec (runRvecs mode E) (reduceVec (embOf d))).isNone)).map (fun d => d.id)

/-- Modelled from the spec, sections 4.6 and 6: the committed state of a
successful run — documents re-pointed, the reconciled topic set, and temporal
series recomputed from scratch for every topic with current members
(`replace_series`) while dormant topics' historical series are retained
untouched. -/
def pipelineCore (mode : Mode) (E : ExternalState) : ExternalState :=
  let topics1 := (runReconcile mode E).topics
  let docs2 := runDocs2 mode E
  let act := activeIds topics1
  { docs := docs2,
    topics := topics1,
    temporal := E.temporal.filter (fun e => decide (¬ e.topic_id ∈ act))
      ++ act.flatMap (fun tid => seriesFor tid docs2) }

/-- Modelled from the spec, sections 4.7 and 7: the transactional outcome of a
full run — `InsufficientDataError` below the minimum batch size aborts before
anything is computed, a persistence failure aborts the commit, and otherwise
the whole new state is committed atomically. -/
def pipelineCommit (mode : Mode) (persistOk : Bool) (E : ExternalState) :
    Except PipelineError ExternalState :=
  if 2 ≤ (runBatch mode E).length then
    if persistOk then .ok (pipelineCore mode E) else .error .PersistenceError
  else .error .InsufficientDataError

/-- Modelled from the spec, section 4.7: the orchestrator's stages. -/
inductive Stage where
  | Idle
  | Embedding
  | Reducing
  | Clustering
  | Labeling
  | Reconciling
  | Aggregating
  | Persisting
  | Failed
deriving DecidableEq

/-- Modelled from the spec, section 4.7: the orchestrator's run state.  `ext0`
is the external state snapshot at run start, `ext` the externally visible
state; `persistOk` models whether the external store will accept the commit.
Stage data is recomputed from `ext0` at each transition, which is
observationally equivalent to carrying it because every stage is a
deterministic function of the run-start snapshot. -/
structure OrchState where
  stage : Stage
  mode : Mode
  persistOk : Bool
  ext0 : ExternalState
  ext : ExternalState
deriving DecidableEq

/-- Modelled from the spec, section 4.7: one stage transition.  External state
is only written by the `Persisting` transition; an unrecoverable error at any
stage moves to `Failed` leaving external state untouched. -/
def step (s : OrchState) : OrchState :=
  match s.stage with
  | .Idle => s
  | .Embedding => { s with stage := .Reducing }
  | .Reducing =>
    if 2 ≤ (runBatch s.mode s.ext0).length then { s with stage := .Clustering }
    else { s with stage := .Failed }
  | .Clustering => { s with stage := .Labeling }
  | .Labeling => { s with stage := .Reconciling }
  | .Reconciling => { s with stage := .Aggregating }
  | .Aggregating => { s with stage := .Persisting }
  | .Persisting =>
    if s.persistOk then { s with stage := .Idle, ext := pipelineCore s.mode s.ext0 }
    else { s with stage := .Failed }
  | .Failed => s

/-- A freshly accepted run: the orchestrator leaves `Idle` with a snapshot of
the current external state. -/
def startRun (mode : Mode) (persistOk : Bool) (E : ExternalState) : OrchState :=
  { stage := .Embedding, mode := mode, persistOk := persistOk, ext0 := E, ext := E }

/-- `n` stage transitions. -/
def stepN : Nat → OrchState → OrchState
  | 0, s => s
  | n + 1, s => stepN n (step s)

/-- A run is in progress between leaving `Idle` and returning to `Idle` or
`Failed`. -/
def inProgress (s : OrchState) : Bool :=
  !(s.stage == .Idle) && !(s.stage == .Failed)

/-- The outcome signalled to the caller of the trigger interface. -/
inductive TriggerOutcome where
  | accepted
  | rejected (e : PipelineError)
deriving DecidableEq

/-- Modelled from the spec, sections 4.7 and 6: the `run_retrain` trigger — a
second trigger while a run is in progress is rejected with `RetrainInProgress`
(not queued) and leaves the running state untouched. -/
def run_retrain (mode : Mode) (persistOk : Bool) (s : OrchState) :
    OrchState × TriggerOutcome :=
  if inProgress s then (s, .rejected .RetrainInProgress)
  else (startRun mode persistOk s.ext, .accepted)

/-- Well-formedness of an external state: distinct document ids, distinct topic
ids, and any document holding a topic assignment can enter the batch (its
embedding exists or its text embeds successfully) — the shape every state
produced by ingestion plus this core's own commits has. -/
def WF (E : ExternalState) : Prop :=
  (E.docs.map (fun d => d.id)).Nodup ∧
  (E.topics.map (fun t => t.id)).Nodup ∧
  ∀ d ∈ E.docs, d.topic_id ≠ none → (d.embedding.isSome ∨ normalizeText d.full_content ≠ [])

instance WF_decidable (E : ExternalState) : Decidable (WF E) := by
  unfold WF
  infer_instance

/-- Sum of the temporal counts recorded for one topic. -/
def sumCounts (temporal : List TemporalDataPoint) (tid : Nat) : Nat :=
  ((temporal.filter (fun e => e.topic_id == tid)).map (fun e => e.count)).sum

/-- The documents counted in a topic's current temporal series: current members
with a parseable timestamp. -/
def contributors (E : ExternalState) (tid : Nat) : List Nat :=
  ((E.docs.filter (fun d => d.topic_id == some tid && d.published_at.isSome)).map
    (fun d => d.id))

/-- Modelled from the spec, section 4.1: the batch form of the Embedder
contract — one outcome per input text, in input order. -/
def embedBatch (texts : List (List Char)) : List (Except PipelineError (List Int)) :=
  texts.map embed

/-- The stages that can only be reached after the Reducing stage's minimum
batch-size check has passed. -/
def stagePastReduce : Stage → Bool
  | .Clustering => true
  | .Labeling => true
  | .Reconciling => true
  | .Aggregating => true
  | .Persisting => true
  | _ => false

/-- The run invariant of the orchestrator state machine: mid-run the external
state still equals the run-start snapshot (with the data check recorded once
Reducing has passed), and a completed run holds exactly the atomically
committed pipeline output. -/
def OrchInv (mode : Mode) (pOk : Bool) (E : ExternalState) (s : OrchState) : Prop :=
  s.mode = mode ∧ s.persistOk = pOk ∧ s.ext0 = E ∧
    ((s.stage ≠ .Idle ∧ s.ext = E ∧
        (stagePastReduce s.stage = true → 2 ≤ (runBatch mode E).length)) ∨
      (s.stage = .Idle ∧ 2 ≤ (runBatch mode E).length ∧ pOk = true ∧
        s.ext = pipelineCore mode E))

/-- A fresh ingested document, used by the concrete example states. -/
def exDoc (i : Nat) (content : List Char) (ts : Option Nat) : Document :=
  { id := i, source_type := .article, title := [], full_content := content, url := [],
    published_at := ts, embedding := none, topic_id := none }

/-- A concrete corpus with two well-separated two-document clusters (one
document lacking a publish timestamp). -/
def exState : ExternalState :=
  { docs := [exDoc 1 ("apple pie sale".toList) (some 0),
             exDoc 2 ("apple pie sale".toList) (some 90000),
             exDoc 3 ("rocket launch event".toList) (some 0),
             exDoc 4 ("rocket launch event".toList) none],
    topics := [], temporal := [] }

/-- A concrete state holding a previously persisted topic (with historical
temporal data) whose membership is absent from the current corpus, so a
retrain leaves it dormant. -/
def exStateDormant : ExternalState :=
  { docs := [exDoc 1 ("apple".toList) (some 0),
             exDoc 2 ("banana oranges".toList) (some 0)],
    topics := [{ id := 1, name := ("old".toList), keywords := [("x".toList)],
                 created_at := 0, document_count := 5 }],
    temporal := [{ topic_id := 1, time_bucket := 0, count := 1 }] }

/-! ## General helper lemmas -/

instance exceptDecEq {ε α : Type} [DecidableEq ε] [DecidableEq α] :
    DecidableEq (Except ε α) := fun a b =>
  match a, b with
  | .ok x, .ok y =>
    if h : x = y then isTrue (congrArg Except.ok h)
    else isFalse (fun hc => h (Except.ok.inj hc))
  | .error x, .error y =>
    if h : x = y then isTrue (congrArg Except.error h)
    else isFalse (fun hc => h (Except.error.inj hc))
  | .ok _, .error _ => isFalse (fun hc => Except.noConfusion hc)
  | .error _, .ok _ => isFalse (fun hc => Except.noConfusion hc)

lemma length_filter_add_length_filter_not {α : Type} (l : List α) (p : α → Bool) :
    (l.filter p).length + (l.filter (fun x => !(p x))).length = l.length := by
  induction l with
  | nil => rfl
  | cons a t ih =>
    cases h : p a <;> simp [List.filter_cons, h] <;> omega

lemma find?_eq_some_of_mem_of_unique {α : Type} {p : α → Bool} {l : List α} {a : α}
    (hmem : a ∈ l) (hp : p a = true) (huniq : ∀ x ∈ l, p x = true → x = a) :
    l.find? p = some a := by
  induction l with
  | nil => cases hmem
  | cons b t ih =>
    rw [List.find?_cons]
    cases hb : p b with
    | true => rw [huniq b (List.mem_cons_self b t) hb]
    | false =>
      have hab : a ≠ b := fun h => by rw [h] at hp; rw [hp] at hb; cases hb
      rcases List.mem_cons.mp hmem with h | h
      · exact absurd h hab
      · exact ih h (fun x hx hpx => huniq x (List.mem_cons_of_mem _ hx) hpx)

lemma nodup_map_inj_on {α β : Type} {f : α → β} {l : List α}
    (h : (l.map f).Nodup) {a b : α} (ha : a ∈ l) (hb : b ∈ l) (hf : f a = f b) : a = b := by
  induction l with
  | nil => cases ha
  | cons c t ih =>
    rw [List.map_cons, List.nodup_cons] at h
    rcases List.mem_cons.mp ha with rfl | ha2
    · rcases List.mem_cons.mp hb with rfl | hb2
      · rfl
      · exact absurd (hf ▸ List.mem_map_of_mem f hb2) h.1
    · rcases List.mem_cons.mp hb with rfl | hb2
      · exact absurd (hf ▸ List.mem_map_of_mem f ha2) h.1
      · exact ih h.2 ha2 hb2

lemma firstOccsF_stable {α : Type} [DecidableEq α] :
    ∀ (n m : Nat) (l : List α), l.length ≤ n → l.length ≤ m →
      firstOccsF n l = firstOccsF m l := by
  intro n
  induction n with
  | zero =>
    intro m l hln _
    rw [List.length_eq_zero.mp (Nat.le_zero.mp hln)]
    cases m <;> rfl
  | succ k ih =>
    intro m l hln hlm
    cases l with
    | nil => cases m <;> rfl
    | cons a as =>
      cases m with
      | zero => simp at hlm
      | succ m2 =>
        show a :: firstOccsF k (as.filter (fun x => x != a)) =
          a :: firstOccsF m2 (as.filter (fun x => x != a))
        congr 1
        have hf := List.length_filter_le (fun x => x != a) as
        simp only [List.length_cons] at hln hlm
        exact ih m2 _ (by omega) (by omega)

lemma firstOccs_nil {α : Type} [DecidableEq α] : firstOccs ([] : List α) = [] := rfl

lemma firstOccs_cons {α : Type} [DecidableEq α] (a : α) (as : List α) :
    firstOccs (a :: as) = a :: firstOccs (as.filter (fun x => x != a)) := by
  show a :: firstOccsF as.length (as.filter (fun x => x != a)) =
    a :: firstOccsF (as.filter (fun x => x != a)).length (as.filter (fun x => x != a))
  congr 1
  exact firstOccsF_stable _ _ _ (List.length_filter_le _ _) (le_refl _)

lemma firstOccs_induction {α : Type} [DecidableEq α] (P : List α → Prop)
    (h0 : P []) (h1 : ∀ a as, P (as.filter (fun x => x != a)) → P (a :: as)) (l : List α) :
    P l := by
  have H : ∀ (n : Nat) (l2 : List α), l2.length ≤ n → P l2 := by
    intro n
    induction n with
    | zero =>
      intro l2 hl
      rw [List.length_eq_zero.mp (Nat.le_zero.mp hl)]
      exact h0
    | succ k ih =>
      intro l2 hl
      cases l2 with
      | nil => exact h0
      | cons a as =>
        apply h1
        apply ih
        have := List.length_filter_le (fun x => x != a) as
        simp only [List.length_cons] at hl
        omega
  exact H l.length l (le_refl _)

lemma mem_firstOccs {α : Type} [DecidableEq α] (l : List α) (x : α) :
    x ∈ firstOccs l ↔ x ∈ l := by
  induction l using firstOccs_induction with
  | h0 => simp [firstOccs_nil]
  | h1 a as ih =>
    rw [firstOccs_cons]
    simp only [List.mem_cons, ih, List.mem_filter]
    by_cases hx : x = a
    · simp [hx]
    · simp [hx, bne_iff_ne]

lemma nodup_firstOccs {α : Type} [DecidableEq α] (l : List α) :
    (firstOccs l).Nodup := by
  induction l using firstOccs_induction with
  | h0 => simp [firstOccs_nil]
  | h1 a as ih =>
    rw [firstOccs_cons]
    refine List.nodup_cons.mpr ⟨?_, ih⟩
    rw [mem_firstOccs]
    intro hmem
    exact absurd rfl (bne_iff_ne.mp (List.mem_filter.mp hmem).2)

lemma count_filter_ne {α : Type} [DecidableEq α] (as : List α) (a b : α) (hne : b ≠ a) :
    (as.filter (fun x => x != a)).count b = as.count b := by
  induction as with
  | nil => rfl
  | cons c t ih =>
    by_cases hca : c = a
    · subst hca
      rw [List.filter_cons_of_neg (by simp), List.count_cons_of_ne (fun h => hne h) , ih]
    · rw [List.filter_cons_of_pos (by simp [bne_iff_ne]; exact hca)]
      by_cases hcb : b = c
      · subst hcb
        rw [List.count_cons_self, List.count_cons_self, ih]
      · rw [List.count_cons_of_ne hcb, List.count_cons_of_ne hcb, ih]

lemma sum_count_firstOccs {α : Type} [DecidableEq α] (l : List α) :
    ((firstOccs l).map (fun b => l.count b)).sum = l.length := by
  induction l using firstOccs_induction with
  | h0 => simp [firstOccs_nil]
  | h1 a as ih =>
    rw [firstOccs_cons]
    rw [List.map_cons, List.sum_cons]
    have hmap : (firstOccs (as.filter (fun x => x != a))).map (fun b => (a :: as).count b)
        = (firstOccs (as.filter (fun x => x != a))).map
          (fun b => (as.filter (fun x => x != a)).count b) := by
      apply List.map_congr_left
      intro b hb
      have hbne : b ≠ a := by
        have := (List.mem_filter.mp ((mem_firstOccs _ _).mp hb)).2
        exact bne_iff_ne.mp this
      rw [List.count_cons_of_ne hbne, count_filter_ne as a b hbne]
    rw [hmap, ih, List.count_cons_self]
    have hsplit : (as.filter (fun x => x != a)).length + (as.filter (fun x => !(x != a))).length
        = as.length := length_filter_add_length_filter_not as _
    have hcnt : (as.filter (fun x => !(x != a))).length = as.count a := by
      rw [List.count, List.countP_eq_length_filter]
      congr 1
      apply List.filter_congr
      intro x _
      simp [bne]
    simp only [List.length_cons]
    omega

/-! ## Frontend lemmas -/

lemma foldl_add_count (ts : List UITopic) (init : Int) :
    ts.foldl (fun acc topic => acc + topic.count) init = init + (ts.map UITopic.count).sum := by
  induction ts generalizing init with
  | nil => simp
  | cons t ts ih =>
    simp only [List.foldl_cons, List.map_cons, List.sum_cons]
    rw [ih]
    ring

/-! ## Claim theorems for the frontend -/

/-- C8: `getSnippet` returns the fixed message on null/undefined/empty input,
returns text of length at most 300 unchanged, truncates longer text to its
first 300 characters plus an ellipsis, and never returns more than 303
characters. -/
theorem getSnippet_spec :
    (∀ text : Option (List Char), text = none ∨ text = some [] →
      getSnippet text = noContentMsg)
    ∧ (∀ t : List Char, t ≠ [] → t.length ≤ 300 → getSnippet (some t) = t)
    ∧ (∀ t : List Char, 300 < t.length →
      getSnippet (some t) = t.take 300 ++ ("...".toList))
    ∧ (∀ text : Option (List Char), (getSnippet text).length ≤ 303) := by
  refine ⟨?_, ?_, ?_, ?_⟩
  · rintro text (rfl | rfl) <;> simp [getSnippet]
  · intro t ht hlen
    simp only [getSnippet, if_neg ht, if_neg (by omega : ¬ 300 < t.length)]
  · intro t hlen
    have ht : t ≠ [] := by
      intro h
      subst h
      simp at hlen
    simp only [getSnippet, if_neg ht, if_pos hlen]
  · intro text
    match text with
    | none => decide
    | some t =>
      by_cases ht : t = []
      · rw [getSnippet, if_pos ht]
        decide
      · by_cases hlen : 300 < t.length
        · rw [getSnippet, if_neg ht, if_pos hlen]
          rw [List.length_append, List.length_take]
          have hdots : ("...".toList).length = 3 := by decide
          omega
        · rw [getSnippet, if_neg ht, if_neg hlen]
          omega

/-- Witness for C8 at concrete inputs: a 301-character text is truncated to
300 characters plus the ellipsis, and the empty string yields the message. -/
theorem getSnippet_spec_witness :
    getSnippet (some (List.replicate 301 'a')) =
      List.replicate 300 'a' ++ ("...".toList)
    ∧ getSnippet (some []) = noContentMsg := by
  constructor
  · have h := getSnippet_spec.2.2.1 (List.replicate 301 'a')
      (by rw [List.length_replicate]; omega)
    rw [h, List.take_replicate]
    norm_num
  · exact getSnippet_spec.1 (some []) (Or.inr rfl)

/-- C9: the Dashboard's `Total Documents Analyzed` statistic is the sum of the
`count` fields when the topics response is an array and 0 otherwise, and the
`Discovered Topics` statistic is the array length when it is an array and 0
otherwise. -/
theorem dashboard_stats_spec :
    (∀ ts : List UITopic, totalDocuments (.arr ts) = (ts.map UITopic.count).sum)
    ∧ totalDocuments .notArray = 0
    ∧ (∀ ts : List UITopic, uniqueTopics (.arr ts) = ts.length)
    ∧ uniqueTopics .notArray = 0 := by
  refine ⟨?_, rfl, fun ts => rfl, rfl⟩
  intro ts
  simp [totalDocuments, foldl_add_count]

/-- C10: the topic-header section renders exactly when some fetched topic's id
strictly equals `parseInt` of the selected topic id; a `NaN` parse (non-numeric
route parameter) renders nothing, and whenever the header renders, its name and
keyword tags come from a topic of the fetched list (so `keywords.split` is only
evaluated on an existing topic). -/
theorem topicHeader_guard_spec :
    ∀ (topics : List UITopic) (sel : List Char),
    ((renderTopicHeader topics sel).isSome ↔
      ∃ t ∈ topics, strictEqNum t.id (parseIntJS sel) = true)
    ∧ (parseIntJS sel = none → renderTopicHeader topics sel = none)
    ∧ (∀ nm kws, renderTopicHeader topics sel = some (nm, kws) →
      ∃ t ∈ topics, strictEqNum t.id (parseIntJS sel) = true ∧
        nm = t.name ∧ kws = splitKeywords t.keywords) := by
  intro topics sel
  refine ⟨?_, ?_, ?_⟩
  · rw [renderTopicHeader]
    cases h : currentTopic topics sel with
    | none =>
      simp only [Option.isSome_none, Bool.false_eq_true, false_iff]
      rw [currentTopic] at h
      rw [List.find?_eq_none] at h
      rintro ⟨t, ht, hp⟩
      exact absurd hp (by simpa using h t ht)
    | some t =>
      simp only [Option.isSome_some, true_iff]
      rw [currentTopic] at h
      exact ⟨t, List.mem_of_find?_eq_some h, by simpa using List.find?_some h⟩
  · intro hnan
    rw [renderTopicHeader]
    have h : currentTopic topics sel = none := by
      rw [currentTopic, List.find?_eq_none]
      intro t _
      simp [strictEqNum, hnan]
    rw [h]
  · intro nm kws hr
    rw [renderTopicHeader] at hr
    cases h : currentTopic topics sel with
    | none => rw [h] at hr; exact absurd hr (by simp)
    | some t =>
      rw [h] at hr
      rw [currentTopic] at h
      have hpair := Option.some.inj hr
      refine ⟨t, List.mem_of_find?_eq_some h, by simpa using List.find?_some h, ?_, ?_⟩
      · exact (congrArg Prod.fst hpair).symm
      · exact (congrArg Prod.snd hpair).symm

/-- Witness for C10 at concrete inputs: with one fetched topic of id 3, the
non-numeric route parameter renders nothing, while the parameter `3` renders
the header. -/
theorem topicHeader_guard_spec_witness :
    renderTopicHeader [⟨3, "AI", "ai, ml", 5⟩] ("abc".toList) = none
    ∧ (renderTopicHeader [⟨3, "AI", "ai, ml", 5⟩] ("3".toList)).isSome = true := by
  constructor
  · exact (topicHeader_guard_spec [⟨3, "AI", "ai, ml", 5⟩] ("abc".toList)).2.1 (by decide)
  · exact ((topicHeader_guard_spec [⟨3, "AI", "ai, ml", 5⟩] ("3".toList)).1).mpr
      ⟨⟨3, "AI", "ai, ml", 5⟩, by simp, by decide⟩

/-! ## Embedding-stage lemmas -/

lemma embedDoc_fields (mode : Mode) (d : Document) :
    (embedDoc mode d).id = d.id ∧ (embedDoc mode d).full_content = d.full_content ∧
    (embedDoc mode d).topic_id = d.topic_id ∧ (embedDoc mode d).published_at = d.published_at := by
  unfold embedDoc
  split
  · exact ⟨rfl, rfl, rfl, rfl⟩
  · cases hE : embed d.full_content with
    | ok v => exact ⟨rfl, rfl, rfl, rfl⟩
    | error e => exact ⟨rfl, rfl, rfl, rfl⟩

lemma assignDoc_fields (rvecs : List (List Int)) (assigned : List (Nat × Nat)) (d : Document) :
    (assignDoc rvecs assigned d).id = d.id ∧
    (assignDoc rvecs assigned d).full_content = d.full_content ∧
    (assignDoc rvecs assigned d).embedding = d.embedding ∧
    (assignDoc rvecs assigned d).published_at = d.published_at := by
  unfold assignDoc
  split
  · exact ⟨rfl, rfl, rfl, rfl⟩
  · exact ⟨rfl, rfl, rfl, rfl⟩

lemma embedDoc_incr_none (d : Document) (hemb : d.embedding = none) :
    embedDoc .incremental d =
      (match embed d.full_content with
        | .ok v => { d with embedding := some v }
        | .error _ => d) := by
  unfold embedDoc
  rw [if_neg (by simp [hemb])]

lemma embedDoc_incr_some (d : Document) (v : List Int) (hemb : d.embedding = some v) :
    embedDoc .incremental d = d := by
  unfold embedDoc
  rw [if_pos (by simp [hemb])]

lemma embedDoc_incr_idem (d : Document) :
    embedDoc .incremental (embedDoc .incremental d) = embedDoc .incremental d := by
  rcases hemb : d.embedding with _ | v
  · rw [embedDoc_incr_none d hemb]
    cases hE : embed d.full_content with
    | ok v => exact embedDoc_incr_some _ v rfl
    | error e =>
      rw [embedDoc_incr_none d hemb, hE]
  · rw [embedDoc_incr_some d v hemb, embedDoc_incr_some d v hemb]

lemma embedStage_incr_idem (docs : List Document) :
    embedStage .incremental (embedStage .incremental docs) = embedStage .incremental docs := by
  unfold embedStage
  rw [List.map_map]
  apply List.map_congr_left
  intro d _
  exact embedDoc_incr_idem d

/-! ## Orchestrator state-machine lemmas -/

lemma orchInv_start (mode : Mode) (pOk : Bool) (E : ExternalState) :
    OrchInv mode pOk E (startRun mode pOk E) := by
  refine ⟨rfl, rfl, rfl, Or.inl ⟨?_, rfl, ?_⟩⟩
  · intro h
    cases h
  · intro h
    cases h

lemma orchInv_step (mode : Mode) (pOk : Bool) (E : ExternalState) (s : OrchState)
    (h : OrchInv mode pOk E s) : OrchInv mode pOk E (step s) := by
  obtain ⟨hm, hp, h0, hrest⟩ := h
  rcases hrest with ⟨hni, hext, hpast⟩ | ⟨hidle, henough, hpok, hext⟩
  · cases hstage : s.stage with
    | Idle => exact absurd hstage hni
    | Embedding =>
      refine ⟨by simp [step, hstage, hm], by simp [step, hstage, hp],
        by simp [step, hstage, h0], Or.inl ⟨?_, ?_, ?_⟩⟩
      · simp [step, hstage]
      · simp [step, hstage, hext]
      · intro hcontra
        simp [step, hstage, stagePastReduce] at hcontra
    | Reducing =>
      by_cases hck : 2 ≤ (runBatch s.mode s.ext0).length
      · have hstep : step s = { s with stage := .Clustering } := by
          simp [step, hstage, hck]
        rw [hstep]
        refine ⟨hm, hp, h0, Or.inl ⟨by simp, by simp [hext], fun _ => ?_⟩⟩
        rw [hm, h0] at hck
        exact hck
      · have hstep : step s = { s with stage := .Failed } := by
          simp [step, hstage, hck]
        rw [hstep]
        refine ⟨hm, hp, h0, Or.inl ⟨by simp, by simp [hext], ?_⟩⟩
        intro hcontra
        simp [stagePastReduce] at hcontra
    | Clustering =>
      have hstep : step s = { s with stage := .Labeling } := by simp [step, hstage]
      rw [hstep]
      exact ⟨hm, hp, h0, Or.inl ⟨by simp, by simp [hext],
        fun _ => hpast (by rw [hstage]; rfl)⟩⟩
    | Labeling =>
      have hstep : step s = { s with stage := .Reconciling } := by simp [step, hstage]
      rw [hstep]
      exact ⟨hm, hp, h0, Or.inl ⟨by simp, by simp [hext],
        fun _ => hpast (by rw [hstage]; rfl)⟩⟩
    | Reconciling =>
      have hstep : step s = { s with stage := .Aggregating } := by simp [step, hstage]
      rw [hstep]
      exact ⟨hm, hp, h0, Or.inl ⟨by simp, by simp [hext],
        fun _ => hpast (by rw [hstage]; rfl)⟩⟩
    | Aggregating =>
      have hstep : step s = { s with stage := .Persisting } := by simp [step, hstage]
      rw [hstep]
      exact ⟨hm, hp, h0, Or.inl ⟨by simp, by simp [hext],
        fun _ => hpast (by rw [hstage]; rfl)⟩⟩
    | Persisting =>
      have henough : 2 ≤ (runBatch mode E).length := hpast (by rw [hstage]; rfl)
      by_cases hpk : s.persistOk = true
      · have hstep : step s =
            { s with stage := .Idle, ext := pipelineCore s.mode s.ext0 } := by
          simp [step, hstage, hpk]
        rw [hstep]
        exact ⟨hm, hp, h0, Or.inr ⟨by simp, henough, by rw [← hp, hpk],
          by simp [hm, h0]⟩⟩
      · have hstep : step s = { s with stage := .Failed } := by
          simp [step, hstage, hpk]
        rw [hstep]
        refine ⟨hm, hp, h0, Or.inl ⟨by simp, by simp [hext], ?_⟩⟩
        intro hcontra
        simp [stagePastReduce] at hcontra
    | Failed =>
      have hstep : step s = s := by simp [step, hstage]
      rw [hstep]
      exact ⟨hm, hp, h0, Or.inl ⟨(by rw [hstage]; intro hc; cases hc), hext, hpast⟩⟩
  · have hstep : step s = s := by simp [step, hidle]
    rw [hstep]
    exact ⟨hm, hp, h0, Or.inr ⟨hidle, henough, hpok, hext⟩⟩

lemma orchInv_stepN (mode : Mode) (pOk : Bool) (E : ExternalState) :
    ∀ (n : Nat) (s : OrchState), OrchInv mode pOk E s → OrchInv mode pOk E (stepN n s) := by
  intro n
  induction n with
  | zero => intro s h; exact h
  | succ k ih =>
    intro s h
    exact ih (step s) (orchInv_step mode pOk E s h)

/-! ## Claim theorems for the backend -/

/-- C1: a retrain run is atomic — at every point of a run the externally
visible state is either exactly the run-start state or the full committed
pipeline output (reached only back at `Idle` with a successful commit), and a
failed run leaves the external state untouched; no partially updated state is
ever externally visible. -/
theorem atomic_commit_spec (n : Nat) (mode : Mode) (pOk : Bool) (E : ExternalState) :
    ((stepN n (startRun mode pOk E)).ext = E ∨
      (pipelineCommit mode pOk E = .ok ((stepN n (startRun mode pOk E)).ext) ∧
        (stepN n (startRun mode pOk E)).stage = .Idle))
    ∧ ((stepN n (startRun mode pOk E)).stage = .Failed →
        (stepN n (startRun mode pOk E)).ext = E) := by
  have h := orchInv_stepN mode pOk E n (startRun mode pOk E) (orchInv_start mode pOk E)
  obtain ⟨hm, hp, h0, hrest⟩ := h
  rcases hrest with ⟨hni, hext, _⟩ | ⟨hidle, henough, hpok, hext⟩
  · exact ⟨Or.inl hext, fun _ => hext⟩
  · constructor
    · right
      refine ⟨?_, hidle⟩
      rw [hext]
      unfold pipelineCommit
      rw [if_pos henough, if_pos hpok]
    · intro hf
      rw [hidle] at hf
      cases hf

/-- Witness for C1: a concrete run whose commit is refused by the store ends
in `Failed` with the external state untouched. -/
theorem atomic_commit_spec_witness :
    (stepN 8 (startRun .incremental false exState)).ext = exState :=
  (atomic_commit_spec 8 .incremental false exState).2 (by decide)

/-- C6: triggering `run_retrain` while a run is in progress (between leaving
`Idle` and returning to `Idle` or `Failed`) is rejected with
`RetrainInProgress` and leaves the in-progress run's state untouched. -/
theorem retrain_mutex_spec (s : OrchState) (mode : Mode) (pOk : Bool) :
    inProgress s = true → run_retrain mode pOk s = (s, .rejected .RetrainInProgress) := by
  intro h
  unfold run_retrain
  rw [if_pos h]

/-- Witness for C6: a second trigger against a freshly started concrete run is
rejected and changes nothing. -/
theorem retrain_mutex_spec_witness :
    run_retrain .full true (startRun .incremental true exState) =
      (startRun .incremental true exState, .rejected .RetrainInProgress) :=
  retrain_mutex_spec (startRun .incremental true exState) .full true (by decide)

/-- C7: the Embedder contract — `embedBatch` yields exactly one outcome per
input text in input order, `embed` is a pure function of the text returning
vectors of the fixed length, empty-after-normalization input fails with
`EmbeddingError`, and a document whose text fails to embed is left unchanged
by the Embedding stage (so it is skipped, each document being processed
independently of the rest of the batch). -/
theorem embedder_contract_spec :
    (∀ texts : List (List Char), (embedBatch texts).length = texts.length)
    ∧ (∀ (texts : List (List Char)) (i : Nat), (embedBatch texts)[i]? = texts[i]?.map embed)
    ∧ (∀ (t : List Char) (v : List Int), embed t = .ok v → v.length = embedDim)
    ∧ (∀ t1 t2 : List Char, t1 = t2 → embed t1 = embed t2)
    ∧ (∀ t : List Char, normalizeText t = [] → embed t = .error .EmbeddingError)
    ∧ (∀ (mode : Mode) (docs : List Document), (embedStage mode docs).length = docs.length)
    ∧ (∀ (mode : Mode) (docs : List Document) (i : Nat),
        (embedStage mode docs)[i]? = docs[i]?.map (embedDoc mode))
    ∧ (∀ (mode : Mode) (d : Document) (e : PipelineError), d.embedding = none →
        embed d.full_content = .error e → embedDoc mode d = d) := by
  refine ⟨?_, ?_, ?_, ?_, ?_, ?_, ?_, ?_⟩
  · intro texts
    exact List.length_map texts embed
  · intro texts i
    exact List.getElem?_map embed texts i
  · intro t v h
    unfold embed at h
    split at h
    · cases h
    · cases h
      rfl
  · intro t1 t2 h
    rw [h]
  · intro t h
    unfold embed
    rw [if_pos h]
  · intro mode docs
    exact List.length_map docs (embedDoc mode)
  · intro mode docs i
    exact List.getElem?_map (embedDoc mode) docs i
  · intro mode d e h1 h2
    unfold embedDoc
    rw [if_neg (by simp [h1]), h2]

/-- Witness for C7 at concrete inputs: a nonempty text embeds to the
fixed-length vector, whitespace-only text raises `EmbeddingError`, and a
document with whitespace-only text is left unchanged (skipped). -/
theorem embedder_contract_spec_witness :
    (embedVec ("ab".toList)).length = embedDim
    ∧ embed (" ".toList) = .error .EmbeddingError
    ∧ embedDoc .incremental (exDoc 9 (" ".toList) none) = exDoc 9 (" ".toList) none := by
  refine ⟨?_, ?_, ?_⟩
  · exact embedder_contract_spec.2.2.1 ("ab".toList) (embedVec ("ab".toList)) (by decide)
  · exact embedder_contract_spec.2.2.2.2.1 (" ".toList) (by decide)
  · exact embedder_contract_spec.2.2.2.2.2.2.2 .incremental (exDoc 9 (" ".toList) none)
      .EmbeddingError rfl (by decide)

/-! ## Pipeline structure lemmas -/

lemma pipelineCommit_ok {mode : Mode} {pOk : Bool} {E E1 : ExternalState}
    (h : pipelineCommit mode pOk E = .ok E1) :
    E1 = pipelineCore mode E ∧ 2 ≤ (runBatch mode E).length ∧ pOk = true := by
  unfold pipelineCommit at h
  by_cases h2 : 2 ≤ (runBatch mode E).length
  · rw [if_pos h2] at h
    cases pOk with
    | false => simp at h
    | true =>
      rw [if_pos rfl] at h
      exact ⟨(Except.ok.inj h).symm, h2, rfl⟩
  · rw [if_neg h2] at h
    simp at h

lemma pipelineCore_fields (mode : Mode) (E : ExternalState) :
    (pipelineCore mode E).topics = (runReconcile mode E).topics
    ∧ (pipelineCore mode E).docs = runDocs2 mode E
    ∧ (pipelineCore mode E).temporal =
        E.temporal.filter (fun e =>
          decide (¬ e.topic_id ∈ activeIds (runReconcile mode E).topics))
        ++ (activeIds (runReconcile mode E).topics).flatMap
            (fun tid => seriesFor tid (runDocs2 mode E)) :=
  ⟨rfl, rfl, rfl⟩

lemma runReconcile_fields (mode : Mode) (E : ExternalState) :
    (runReconcile mode E).topics =
      E.topics.map (updateTopicWith (matching (runClusters mode E) E.topics (runDocs1 mode E))
        (runClusters mode E))
      ++ (unmatchedClusters (matching (runClusters mode E) E.topics (runDocs1 mode E))
          (runClusters mode E)).enum.map (newTopicFor (maxTopicId E.topics))
    ∧ (runReconcile mode E).assigned =
        matching (runClusters mode E) E.topics (runDocs1 mode E)
        ++ ((unmatchedClusters (matching (runClusters mode E) E.topics (runDocs1 mode E))
              (runClusters mode E)).zip
            ((unmatchedClusters (matching (runClusters mode E) E.topics (runDocs1 mode E))
              (runClusters mode E)).enum.map (newTopicFor (maxTopicId E.topics)))).map
          (fun p => (p.1.label, p.2.id))
    ∧ (runReconcile mode E).matched =
        matching (runClusters mode E) E.topics (runDocs1 mode E)
    ∧ (runReconcile mode E).dormantIds =
        (E.topics.filter (fun t =>
          ((matching (runClusters mode E) E.topics (runDocs1 mode E)).find?
            (fun p => p.2 == t.id)).isNone)).map (fun t => t.id) :=
  ⟨rfl, rfl, rfl, rfl⟩

lemma updateTopicWith_id (m : List (Nat × Nat)) (clusters : List Cluster) (t : Topic) :
    (updateTopicWith m clusters t).id = t.id := by
  unfold updateTopicWith
  split
  · split <;> rfl
  · rfl

lemma updateTopicWith_of_none {m : List (Nat × Nat)} {clusters : List Cluster} {t : Topic}
    (h : m.find? (fun p => p.2 == t.id) = none) :
    updateTopicWith m clusters t = { t with document_count := 0 } := by
  unfold updateTopicWith
  rw [h]

lemma updateTopicWith_of_some {m : List (Nat × Nat)} {clusters : List Cluster} {t : Topic}
    {p : Nat × Nat} {c : Cluster} (h1 : m.find? (fun q => q.2 == t.id) = some p)
    (h2 : clusters.find? (fun c => c.label == p.1) = some c) :
    updateTopicWith m clusters t = refreshTopic c t := by
  unfold updateTopicWith
  rw [h1]
  show (match clusters.find? (fun c => c.label == p.1) with
    | some c => refreshTopic c t
    | none => { t with document_count := 0 }) = refreshTopic c t
  rw [h2]

lemma topic_eta (t : Topic) :
    ({ id := t.id, name := t.name, keywords := t.keywords, created_at := t.created_at,
       document_count := t.document_count } : Topic) = t := rfl

lemma foldl_max_le_init (l : List Nat) (a : Nat) : a ≤ l.foldl max a := by
  induction l generalizing a with
  | nil => exact le_refl a
  | cons b t ih => exact le_trans (le_max_left a b) (ih (max a b))

lemma le_foldl_max (l : List Nat) (a x : Nat) (hx : x ∈ l) : x ≤ l.foldl max a := by
  induction l generalizing a with
  | nil => cases hx
  | cons b t ih =>
    rcases List.mem_cons.mp hx with rfl | hmem
    · exact le_trans (le_max_right a x) (foldl_max_le_init t (max a x))
    · exact ih (max a b) hmem

lemma mem_enumFrom_of_mem {α : Type} {l : List α} {c : α} (h : c ∈ l) :
    ∀ n : Nat, ∃ i : Nat, (i, c) ∈ l.enumFrom n := by
  induction l with
  | nil => cases h
  | cons a t ih =>
    intro n
    rcases List.mem_cons.mp h with rfl | hmem
    · exact ⟨n, List.mem_cons_self _ _⟩
    · obtain ⟨i, hi⟩ := ih hmem (n + 1)
      exact ⟨i, List.mem_cons_of_mem _ hi⟩

lemma mem_enum_of_mem {α : Type} {l : List α} {c : α} (h : c ∈ l) :
    ∃ i : Nat, (i, c) ∈ l.enum :=
  mem_enumFrom_of_mem h 0

lemma zip_enumFrom_map {α β : Type} (f : Nat × α → β) :
    ∀ (l : List α) (n : Nat),
      l.zip ((l.enumFrom n).map f) = (l.enumFrom n).map (fun p => (p.2, f p)) := by
  intro l
  induction l with
  | nil => intro n; rfl
  | cons a t ih =>
    intro n
    simp only [List.enumFrom_cons, List.map_cons, List.zip_cons_cons]
    rw [ih (n + 1)]

lemma zip_enum_map {α β : Type} (f : Nat × α → β) (l : List α) :
    l.zip (l.enum.map f) = l.enum.map (fun p => (p.2, f p)) := by
  rw [List.enum]
  exact zip_enumFrom_map f l 0

lemma filterMap_singleton_of_unique {α β : Type} {f : α → Option β} :
    ∀ {l : List α} {a : α} {b : β}, l.Nodup → a ∈ l → f a = some b →
      (∀ x ∈ l, x ≠ a → f x = none) → l.filterMap f = [b] := by
  intro l
  induction l with
  | nil => intro a b _ h; cases h
  | cons c t ih =>
    intro a b hnd hmem hfa hother
    rcases List.mem_cons.mp hmem with rfl | hmem2
    · rw [List.filterMap_cons, hfa]
      have ht : t.filterMap f = [] := by
        rw [List.filterMap_eq_nil_iff]
        intro x hx
        exact hother x (List.mem_cons_of_mem _ hx)
          (fun hxa => (List.nodup_cons.mp hnd).1 (hxa ▸ hx))
      rw [ht]
    · have hca : c ≠ a := fun hca => (List.nodup_cons.mp hnd).1 (hca ▸ hmem2)
      rw [List.filterMap_cons, hother c (List.mem_cons_self _ _) hca]
      exact ih (List.nodup_cons.mp hnd).2 hmem2 hfa
        (fun x hx => hother x (List.mem_cons_of_mem _ hx))

lemma flatMap_singleton_map {α β : Type} (g : α → β) (l : List α)
    (f : α → List β) (h : ∀ x ∈ l, f x = [g x]) : l.flatMap f = l.map g := by
  induction l with
  | nil => rfl
  | cons a t ih =>
    rw [List.flatMap_cons, h a (List.mem_cons_self _ _), List.map_cons]
    rw [ih (fun x hx => h x (List.mem_cons_of_mem _ hx))]
    rfl

/-! ## Sorting, sweeping and similarity lemmas -/

lemma orderedInsert_congr {α : Type} (r s : α → α → Prop) [DecidableRel r] [DecidableRel s]
    (h : ∀ a b, r a b ↔ s a b) (a : α) (l : List α) :
    List.orderedInsert r a l = List.orderedInsert s a l := by
  induction l with
  | nil => rfl
  | cons b t ih =>
    rw [List.orderedInsert, List.orderedInsert]
    by_cases hr : r a b
    · rw [if_pos hr, if_pos ((h a b).mp hr)]
    · rw [if_neg hr, if_neg (fun hs => hr ((h a b).mpr hs)), ih]

lemma insertionSort_congr {α : Type} (r s : α → α → Prop) [DecidableRel r] [DecidableRel s]
    (h : ∀ a b, r a b ↔ s a b) (l : List α) :
    List.insertionSort r l = List.insertionSort s l := by
  induction l with
  | nil => rfl
  | cons b t ih =>
    rw [List.insertionSort, List.insertionSort, ih, orderedInsert_congr r s h]

lemma sweep_subset :
    ∀ (ps : List CandPair) (tc tt : List Nat) (q : Nat × Nat), q ∈ sweep ps tc tt →
      ∃ p ∈ ps, p.clusterLabel = q.1 ∧ p.topicId = q.2 := by
  intro ps
  induction ps with
  | nil => intro tc tt q h; cases h
  | cons p rest ih =>
    intro tc tt q h
    rw [sweep] at h
    by_cases hc : p.clusterLabel ∈ tc ∨ p.topicId ∈ tt
    · rw [if_pos hc] at h
      obtain ⟨q2, hq2, h1, h2⟩ := ih _ _ q h
      exact ⟨q2, List.mem_cons_of_mem _ hq2, h1, h2⟩
    · rw [if_neg hc] at h
      rcases List.mem_cons.mp h with rfl | h2
      · exact ⟨p, List.mem_cons_self _ _, rfl, rfl⟩
      · obtain ⟨q2, hq2, ha, hb⟩ := ih _ _ q h2
        exact ⟨q2, List.mem_cons_of_mem _ hq2, ha, hb⟩

lemma sweep_fst_nodup :
    ∀ (ps : List CandPair) (tc tt : List Nat),
      ((sweep ps tc tt).map Prod.fst).Nodup ∧
        ∀ x ∈ (sweep ps tc tt).map Prod.fst, x ∉ tc := by
  intro ps
  induction ps with
  | nil => intro tc tt; exact ⟨List.nodup_nil, by intro x h; cases h⟩
  | cons p rest ih =>
    intro tc tt
    rw [sweep]
    by_cases hc : p.clusterLabel ∈ tc ∨ p.topicId ∈ tt
    · rw [if_pos hc]
      exact ih tc tt
    · rw [if_neg hc]
      push_neg at hc
      have ihh := ih (p.clusterLabel :: tc) (p.topicId :: tt)
      constructor
      · rw [List.map_cons, List.nodup_cons]
        refine ⟨?_, ihh.1⟩
        intro hmem
        exact ihh.2 _ hmem (List.mem_cons_self _ _)
      · intro x hx
        rcases List.mem_cons.mp hx with rfl | hx2
        · exact hc.1
        · exact fun hxtc => ihh.2 x hx2 (List.mem_cons_of_mem _ hxtc)

lemma sweep_snd_nodup :
    ∀ (ps : List CandPair) (tc tt : List Nat),
      ((sweep ps tc tt).map Prod.snd).Nodup ∧
        ∀ x ∈ (sweep ps tc tt).map Prod.snd, x ∉ tt := by
  intro ps
  induction ps with
  | nil => intro tc tt; exact ⟨List.nodup_nil, by intro x h; cases h⟩
  | cons p rest ih =>
    intro tc tt
    rw [sweep]
    by_cases hc : p.clusterLabel ∈ tc ∨ p.topicId ∈ tt
    · rw [if_pos hc]
      exact ih tc tt
    · rw [if_neg hc]
      push_neg at hc
      have ihh := ih (p.clusterLabel :: tc) (p.topicId :: tt)
      constructor
      · rw [List.map_cons, List.nodup_cons]
        refine ⟨?_, ihh.1⟩
        intro hmem
        exact ihh.2 _ hmem (List.mem_cons_self _ _)
      · intro x hx
        rcases List.mem_cons.mp hx with rfl | hx2
        · exact hc.2
        · exact fun hxtt => ihh.2 x hx2 (List.mem_cons_of_mem _ hxtt)

lemma sweep_all_of_compat :
    ∀ (ps : List CandPair) (tc tt : List Nat),
      (ps.map CandPair.clusterLabel).Nodup → (ps.map CandPair.topicId).Nodup →
      (∀ p ∈ ps, p.clusterLabel ∉ tc ∧ p.topicId ∉ tt) →
      sweep ps tc tt = ps.map (fun p => (p.clusterLabel, p.topicId)) := by
  intro ps
  induction ps with
  | nil => intro tc tt _ _ _; rfl
  | cons p rest ih =>
    intro tc tt hnc hnt hcompat
    rw [sweep]
    have hp := hcompat p (List.mem_cons_self _ _)
    rw [if_neg (by push_neg; exact hp)]
    rw [List.map_cons]
    congr 1
    apply ih
    · exact (List.nodup_cons.mp (List.map_cons CandPair.clusterLabel p rest ▸ hnc)).2
    · exact (List.nodup_cons.mp (List.map_cons CandPair.topicId p rest ▸ hnt)).2
    · intro q hq
      have hq1 : q.clusterLabel ≠ p.clusterLabel := by
        intro he
        exact (List.nodup_cons.mp (List.map_cons CandPair.clusterLabel p rest ▸ hnc)).1
          (he ▸ List.mem_map_of_mem CandPair.clusterLabel hq)
      have hq2 : q.topicId ≠ p.topicId := by
        intro he
        exact (List.nodup_cons.mp (List.map_cons CandPair.topicId p rest ▸ hnt)).1
          (he ▸ List.mem_map_of_mem CandPair.topicId hq)
      have hqc := hcompat q (List.mem_cons_of_mem _ hq)
      constructor
      · intro hmem
        rcases List.mem_cons.mp hmem with he | hmem2
        · exact hq1 he
        · exact hqc.1 hmem2
      · intro hmem
        rcases List.mem_cons.mp hmem with he | hmem2
        · exact hq2 he
        · exact hqc.2 hmem2

lemma find?_fst_of_nodup {m : List (Nat × Nat)} {l tid : Nat}
    (hnd : (m.map Prod.fst).Nodup) (hmem : (l, tid) ∈ m) :
    m.find? (fun p => p.1 == l) = some (l, tid) := by
  apply find?_eq_some_of_mem_of_unique hmem (by simp)
  intro x hx hpx
  have hx1 : x.1 = l := by simpa using hpx
  exact nodup_map_inj_on hnd hx hmem (by simpa using hx1)

lemma find?_snd_of_nodup {m : List (Nat × Nat)} {l tid : Nat}
    (hnd : (m.map Prod.snd).Nodup) (hmem : (l, tid) ∈ m) :
    m.find? (fun p => p.2 == tid) = some (l, tid) := by
  apply find?_eq_some_of_mem_of_unique hmem (by simp)
  intro x hx hpx
  have hx2 : x.2 = tid := by simpa using hpx
  exact nodup_map_inj_on hnd hx hmem (by simpa using hx2)

lemma firstOccs_length_pos {α : Type} [DecidableEq α] (a : List α) (ha : a ≠ []) :
    0 < (firstOccs a).length := by
  cases a with
  | nil => exact absurd rfl ha
  | cons x t =>
    rw [firstOccs_cons]
    simp

lemma jaccard1000_self {α : Type} [DecidableEq α] (a : List α) : jaccard1000 a a = 1000 := by
  unfold jaccard1000
  simp only []
  have hfilter : (firstOccs a).filter (fun x => decide (x ∈ firstOccs a)) = firstOccs a :=
    List.filter_eq_self.mpr (fun x hx => by simpa using hx)
  have hfilter2 : (firstOccs a).filter (fun x => decide (¬ x ∈ firstOccs a)) = [] :=
    List.filter_eq_nil_iff.mpr (fun x hx => by simpa using hx)
  rw [hfilter, hfilter2, List.append_nil]
  by_cases h : (firstOccs a).length = 0
  · rw [if_pos h]
  · rw [if_neg h, Nat.mul_comm]
    exact Nat.mul_div_cancel 1000 (Nat.pos_of_ne_zero h)

lemma jaccard1000_le {α : Type} [DecidableEq α] (a b : List α) : jaccard1000 a b ≤ 1000 := by
  unfold jaccard1000
  simp only []
  by_cases h : ((firstOccs a) ++ (firstOccs b).filter (fun x => decide (¬ x ∈ firstOccs a))).length = 0
  · rw [if_pos h]
  · rw [if_neg h]
    have hle : ((firstOccs a).filter (fun x => decide (x ∈ firstOccs b))).length ≤
        ((firstOccs a) ++ (firstOccs b).filter (fun x => decide (¬ x ∈ firstOccs a))).length := by
      rw [List.length_append]
      exact le_trans (List.length_filter_le _ _) (Nat.le_add_right _ _)
    calc ((firstOccs a).filter (fun x => decide (x ∈ firstOccs b))).length * 1000 /
          ((firstOccs a) ++ (firstOccs b).filter (fun x => decide (¬ x ∈ firstOccs a))).length
        ≤ ((firstOccs a) ++ (firstOccs b).filter (fun x => decide (¬ x ∈ firstOccs a))).length * 1000 /
          ((firstOccs a) ++ (firstOccs b).filter (fun x => decide (¬ x ∈ firstOccs a))).length :=
          Nat.div_le_div_right (Nat.mul_le_mul_right 1000 hle)
      _ = 1000 := by
          rw [Nat.mul_comm]
          exact Nat.mul_div_cancel 1000 (Nat.pos_of_ne_zero h)

lemma jaccard1000_disjoint {α : Type} [DecidableEq α] (a b : List α) (ha : a ≠ [])
    (hdisj : ∀ x ∈ a, x ∉ b) : jaccard1000 a b = 0 := by
  unfold jaccard1000
  simp only []
  have hfilter : (firstOccs a).filter (fun x => decide (x ∈ firstOccs b)) = [] := by
    rw [List.filter_eq_nil_iff]
    intro x hx
    have hxa : x ∈ a := (mem_firstOccs a x).mp hx
    simp [mem_firstOccs, hdisj x hxa]
  have hpos : 0 <
      ((firstOccs a) ++ (firstOccs b).filter (fun x => decide (¬ x ∈ firstOccs a))).length := by
    rw [List.length_append]
    exact Nat.lt_of_lt_of_le (firstOccs_length_pos a ha) (Nat.le_add_right _ _)
  rw [hfilter, if_neg (Nat.pos_iff_ne_zero.mp hpos)]
  simp

/-! ## Run-level basic lemmas -/

lemma runRvecs_eq (mode : Mode) (E : ExternalState) :
    runRvecs mode E = (runBatch mode E).map (fun d => reduceVec (embOf d)) := by
  unfold runRvecs fit_transform
  rw [List.map_map]
  rfl

lemma runLabels_eq (mode : Mode) (E : ExternalState) :
    runLabels mode E =
      (runBatch mode E).map (fun d => labelOfVec (runRvecs mode E) (reduceVec (embOf d))) := by
  unfold runLabels cluster
  rw [runRvecs_eq mode E, List.map_map]
  rfl

lemma mem_runLabelSet (mode : Mode) (E : ExternalState) (l : Nat) :
    l ∈ runLabelSet mode E ↔
      ∃ d ∈ runBatch mode E,
        labelOfVec (runRvecs mode E) (reduceVec (embOf d)) = some l := by
  unfold runLabelSet labelSet
  rw [mem_firstOccs, List.mem_filterMap, runLabels_eq mode E]
  constructor
  · rintro ⟨o, ho, hid⟩
    obtain ⟨d, hd, rfl⟩ := List.mem_map.mp ho
    exact ⟨d, hd, hid⟩
  · rintro ⟨d, hd, hld⟩
    exact ⟨some l, hld ▸ List.mem_map_of_mem _ hd, rfl⟩

lemma nodup_runLabelSet (mode : Mode) (E : ExternalState) : (runLabelSet mode E).Nodup :=
  nodup_firstOccs _

lemma mkCluster_fields (batch : List Document) (rvecs : List (List Int))
    (corpus : List Document) (l : Nat) :
    (mkCluster batch rvecs corpus l).label = l
    ∧ (mkCluster batch rvecs corpus l).members = membersOf batch rvecs l
    ∧ (mkCluster batch rvecs corpus l).keywords = topicKeywords (membersOf batch rvecs l) corpus
    ∧ (mkCluster batch rvecs corpus l).name =
        topicName (topicKeywords (membersOf batch rvecs l) corpus) :=
  ⟨rfl, rfl, rfl, rfl⟩

lemma runClusters_label_map (mode : Mode) (E : ExternalState) :
    (runClusters mode E).map Cluster.label = runLabelSet mode E := by
  unfold runClusters
  rw [List.map_map]
  exact List.map_id _

lemma nodup_runClusters_labels (mode : Mode) (E : ExternalState) :
    ((runClusters mode E).map Cluster.label).Nodup := by
  rw [runClusters_label_map]
  exact nodup_runLabelSet mode E

lemma mem_runClusters (mode : Mode) (E : ExternalState) (c : Cluster) :
    c ∈ runClusters mode E ↔ ∃ l ∈ runLabelSet mode E,
      c = mkCluster (runBatch mode E) (runRvecs mode E) (runDocs1 mode E) l := by
  unfold runClusters
  rw [List.mem_map]
  constructor
  · rintro ⟨l, hl, rfl⟩
    exact ⟨l, hl, rfl⟩
  · rintro ⟨l, hl, rfl⟩
    exact ⟨l, hl, rfl⟩

lemma membersOf_length_pos (mode : Mode) (E : ExternalState) (l : Nat)
    (hl : l ∈ runLabelSet mode E) :
    0 < (membersOf (runBatch mode E) (runRvecs mode E) l).length := by
  obtain ⟨d, hd, hld⟩ := (mem_runLabelSet mode E l).mp hl
  have hmem : d ∈ membersOf (runBatch mode E) (runRvecs mode E) l := by
    unfold membersOf
    rw [List.mem_filter]
    exact ⟨hd, by simp [hld]⟩
  exact List.length_pos.mpr (List.ne_nil_of_mem hmem)

lemma runDocs1_ids (mode : Mode) (E : ExternalState) :
    (runDocs1 mode E).map (fun d => d.id) = E.docs.map (fun d => d.id) := by
  unfold runDocs1 embedStage
  rw [List.map_map]
  apply List.map_congr_left
  intro d _
  exact (embedDoc_fields mode d).1

lemma runBatch_sublist (mode : Mode) (E : ExternalState) :
    (runBatch mode E).Sublist (runDocs1 mode E) :=
  List.filter_sublist _

lemma runBatch_ids_nodup (mode : Mode) (E : ExternalState) (hWF : WF E) :
    ((runBatch mode E).map (fun d => d.id)).Nodup := by
  have h1 : ((runDocs1 mode E).map (fun d => d.id)).Nodup := by
    rw [runDocs1_ids]
    exact hWF.1
  exact List.Nodup.sublist (List.Sublist.map _ (runBatch_sublist mode E)) h1

lemma runDocs1_ids_nodup (mode : Mode) (E : ExternalState) (hWF : WF E) :
    ((runDocs1 mode E).map (fun d => d.id)).Nodup := by
  rw [runDocs1_ids]
  exact hWF.1

lemma membersOf_sublist (batch : List Document) (rvecs : List (List Int)) (l : Nat) :
    (membersOf batch rvecs l).Sublist batch :=
  List.filter_sublist _

lemma membersOf_label {batch : List Document} {rvecs : List (List Int)} {l : Nat}
    {d : Document} (h : d ∈ membersOf batch rvecs l) :
    d ∈ batch ∧ labelOfVec rvecs (reduceVec (embOf d)) = some l := by
  unfold membersOf at h
  rw [List.mem_filter] at h
  exact ⟨h.1, by simpa using h.2⟩

lemma membersOf_id_disjoint (mode : Mode) (E : ExternalState) (hWF : WF E)
    {l l2 : Nat} (hne : l ≠ l2) :
    ∀ i ∈ (membersOf (runBatch mode E) (runRvecs mode E) l).map (fun d => d.id),
      i ∉ (membersOf (runBatch mode E) (runRvecs mode E) l2).map (fun d => d.id) := by
  intro i hi1 hi2
  obtain ⟨d1, hd1, rfl⟩ := List.mem_map.mp hi1
  obtain ⟨d2, hd2, hid⟩ := List.mem_map.mp hi2
  obtain ⟨hb1, hl1⟩ := membersOf_label hd1
  obtain ⟨hb2, hl2⟩ := membersOf_label hd2
  have hdd : d2 = d1 :=
    nodup_map_inj_on (runBatch_ids_nodup mode E hWF) hb2 hb1 hid
  rw [hdd, hl1] at hl2
  exact hne (Option.some.inj hl2)

lemma embedDoc_emb_none {mode : Mode} {d : Document}
    (h : (embedDoc mode d).embedding = none) :
    embedDoc mode d = d ∧ d.embedding = none ∧
      embed d.full_content = .error .EmbeddingError := by
  by_cases hcond : mode = .incremental ∧ d.embedding.isSome
  · have he : embedDoc mode d = d := by
      unfold embedDoc
      rw [if_pos hcond]
    rw [he] at h
    exact absurd hcond.2 (by rw [h]; simp)
  · cases hE : embed d.full_content with
    | ok v =>
      have he : embedDoc mode d = { d with embedding := some v } := by
        unfold embedDoc
        rw [if_neg hcond, hE]
      rw [he] at h
      simp at h
    | error e =>
      have he : embedDoc mode d = d := by
        unfold embedDoc
        rw [if_neg hcond, hE]
      rw [he] at h
      refine ⟨he, h, ?_⟩
      unfold embed at hE
      by_cases hn : normalizeText d.full_content = []
      · rw [if_pos hn] at hE
        have hee := Except.error.inj hE
        subst hee
        rfl
      · rw [if_neg hn] at hE
        cases hE

lemma runDocs1_topic_none (mode : Mode) (E : ExternalState) (hWF : WF E) :
    ∀ d1 ∈ runDocs1 mode E, d1.embedding = none → d1.topic_id = none := by
  intro d1 hd1 hemb
  obtain ⟨d0, hd0, rfl⟩ := List.mem_map.mp hd1
  obtain ⟨heq, hnone, herr⟩ := embedDoc_emb_none hemb
  rw [heq]
  by_contra htop
  rcases hWF.2.2 d0 hd0 htop with hsome | hnorm
  · rw [hnone] at hsome
    simp at hsome
  · unfold embed at herr
    rw [if_neg hnorm] at herr
    cases herr

lemma assignDoc_of_emb_none {rvecs : List (List Int)} {assigned : List (Nat × Nat)}
    {d : Document} (h : d.embedding = none) : assignDoc rvecs assigned d = d := by
  unfold assignDoc
  rw [if_neg (by simp [h])]

lemma assignDoc_of_emb_some {rvecs : List (List Int)} {assigned : List (Nat × Nat)}
    {d : Document} (h : d.embedding.isSome) :
    assignDoc rvecs assigned d =
      { d with topic_id := ((labelOfVec rvecs (reduceVec (embOf d))).bind
          (fun l => (assigned.find? (fun p => p.1 == l)).map (fun p => p.2))) } := by
  unfold assignDoc
  rw [if_pos h]

/-! ## Candidate-pair and matching lemmas -/

lemma mem_candPairs {clusters : List Cluster} {topics : List Topic} {docs : List Document}
    {p : CandPair} :
    p ∈ candPairs clusters topics docs ↔
      ∃ c ∈ clusters, ∃ t ∈ topics, 0 < t.document_count ∧
        simThreshold ≤ similarity c (memberIds docs t.id) t ∧
        p = { clusterLabel := c.label, topicId := t.id,
              score := similarity c (memberIds docs t.id) t,
              overlap := overlapCount (c.members.map (fun d => d.id)) (memberIds docs t.id) } := by
  unfold candPairs
  rw [List.mem_flatMap]
  constructor
  · rintro ⟨c, hc, hmem⟩
    rw [List.mem_filterMap] at hmem
    obtain ⟨t, ht, hsome⟩ := hmem
    rw [List.mem_filter] at ht
    have ht2 : 0 < t.document_count := by simpa using ht.2
    by_cases hsim : simThreshold ≤ similarity c (memberIds docs t.id) t
    · rw [if_pos hsim] at hsome
      exact ⟨c, hc, t, ht.1, ht2, hsim, (Option.some.inj hsome).symm⟩
    · rw [if_neg hsim] at hsome
      cases hsome
  · rintro ⟨c, hc, t, ht, hcount, hsim, rfl⟩
    refine ⟨c, hc, ?_⟩
    rw [List.mem_filterMap]
    refine ⟨t, ?_, ?_⟩
    · rw [List.mem_filter]
      exact ⟨ht, by simpa using hcount⟩
    · show (if simThreshold ≤ similarity c (memberIds docs t.id) t then _ else none) = _
      rw [if_pos hsim]

lemma matching_sub {clusters : List Cluster} {topics : List Topic} {docs : List Document} :
    ∀ q ∈ matching clusters topics docs, ∃ p ∈ candPairs clusters topics docs,
      p.clusterLabel = q.1 ∧ p.topicId = q.2 := by
  intro q hq
  obtain ⟨p, hp, h1, h2⟩ := sweep_subset _ [] [] q hq
  exact ⟨p, (List.Perm.mem_iff (List.perm_insertionSort pairRank _)).mp hp, h1, h2⟩

lemma matching_fst_nodup (clusters : List Cluster) (topics : List Topic)
    (docs : List Document) : ((matching clusters topics docs).map Prod.fst).Nodup :=
  (sweep_fst_nodup _ [] []).1

lemma matching_snd_nodup (clusters : List Cluster) (topics : List Topic)
    (docs : List Document) : ((matching clusters topics docs).map Prod.snd).Nodup :=
  (sweep_snd_nodup _ [] []).1

lemma zip_newTopics (cl : List Cluster) (base : Nat) :
    ((cl.zip (cl.enum.map (newTopicFor base))).map (fun p => (p.1.label, p.2.id))) =
      cl.enum.map (fun p => (p.2.label, base + 1 + p.1)) := by
  rw [zip_enum_map (newTopicFor base) cl, List.map_map]
  rfl

lemma snd_mem_of_mem_enum {α : Type} {l : List α} {p : Nat × α} (h : p ∈ l.enum) : p.2 ∈ l := by
  have hm := List.mem_map_of_mem Prod.snd h
  rwa [List.enum_map_snd] at hm

/-! ## Reconciliation output lemmas -/

lemma runAssigned_eq2 (mode : Mode) (E : ExternalState) :
    (runReconcile mode E).assigned =
      runMatching mode E ++
        (unmatchedClusters (runMatching mode E) (runClusters mode E)).enum.map
          (fun p => (p.2.label, maxTopicId E.topics + 1 + p.1)) := by
  show runMatching mode E ++ _ = _
  rw [zip_newTopics]
  exact rfl

lemma runTopics_eq (mode : Mode) (E : ExternalState) :
    (runReconcile mode E).topics =
      E.topics.map (updateTopicWith (runMatching mode E) (runClusters mode E)) ++
        (unmatchedClusters (runMatching mode E) (runClusters mode E)).enum.map
          (newTopicFor (maxTopicId E.topics)) := rfl

lemma runDormant_eq (mode : Mode) (E : ExternalState) :
    (runReconcile mode E).dormantIds =
      (E.topics.filter (fun t =>
        ((runMatching mode E).find? (fun p => p.2 == t.id)).isNone)).map (fun t => t.id) := rfl

lemma matched_topic_facts {mode : Mode} {E : ExternalState} {l tid : Nat}
    (h : (l, tid) ∈ runMatching mode E) :
    (∃ c ∈ runClusters mode E, c.label = l) ∧
      ∃ t ∈ E.topics, t.id = tid ∧ 0 < t.document_count := by
  obtain ⟨p, hp, h1, h2⟩ := matching_sub _ h
  rw [mem_candPairs] at hp
  obtain ⟨c, hc, t, ht, hcount, hsim, rfl⟩ := hp
  exact ⟨⟨c, hc, h1⟩, ⟨t, ht, h2, hcount⟩⟩

lemma matched_tid_le {mode : Mode} {E : ExternalState} {l tid : Nat}
    (h : (l, tid) ∈ runMatching mode E) : tid ≤ maxTopicId E.topics := by
  obtain ⟨_, t, ht, htid, _⟩ := matched_topic_facts h
  unfold maxTopicId
  exact le_foldl_max _ 0 tid (htid ▸ List.mem_map_of_mem (fun t => t.id) ht)

lemma mem_newPairs {mode : Mode} {E : ExternalState} {l tid : Nat}
    (h : (l, tid) ∈ (unmatchedClusters (runMatching mode E) (runClusters mode E)).enum.map
      (fun p => (p.2.label, maxTopicId E.topics + 1 + p.1))) :
    ∃ i c, (i, c) ∈ (unmatchedClusters (runMatching mode E) (runClusters mode E)).enum ∧
      l = c.label ∧ tid = maxTopicId E.topics + 1 + i := by
  obtain ⟨⟨i, c⟩, hic, heq⟩ := List.mem_map.mp h
  have h1 := congrArg Prod.fst heq
  have h2 := congrArg Prod.snd heq
  exact ⟨i, c, hic, h1.symm, h2.symm⟩

lemma unmatched_sub {m : List (Nat × Nat)} {clusters : List Cluster} {c : Cluster}
    (h : c ∈ unmatchedClusters m clusters) : c ∈ clusters := by
  unfold unmatchedClusters at h
  exact (List.mem_filter.mp h).1

lemma unmatched_not_matched {m : List (Nat × Nat)} {clusters : List Cluster} {c : Cluster}
    (h : c ∈ unmatchedClusters m clusters) : ∀ p ∈ m, p.1 ≠ c.label := by
  unfold unmatchedClusters at h
  have h2 := (List.mem_filter.mp h).2
  rw [Option.isNone_iff_eq_none, List.find?_eq_none] at h2
  intro p hp
  simpa using h2 p hp

lemma unmatched_labels_nodup (mode : Mode) (E : ExternalState) :
    ((unmatchedClusters (runMatching mode E) (runClusters mode E)).map Cluster.label).Nodup :=
  List.Nodup.sublist (List.Sublist.map _ (List.filter_sublist _))
    (nodup_runClusters_labels mode E)

lemma enum_map_snd_f {α β : Type} (l : List α) (f : α → β) :
    l.enum.map (fun p => f p.2) = l.map f := by
  have h : l.enum.map (fun p => f p.2) = (l.enum.map Prod.snd).map f := by
    rw [List.map_map]
    rfl
  rw [h, List.enum_map_snd]

lemma enum_add_map_nodup {α : Type} (l : List α) (base : Nat) :
    (l.enum.map (fun p : Nat × α => base + 1 + p.1)).Nodup := by
  have h : l.enum.map (fun p : Nat × α => base + 1 + p.1) =
      (l.enum.map Prod.fst).map (fun i => base + 1 + i) := by
    rw [List.map_map]
    rfl
  rw [h, List.enum_map_fst]
  exact (List.nodup_range _).map (fun a b hab => by omega)

lemma enum_add_map_gt {α : Type} {l : List α} {base x : Nat}
    (h : x ∈ l.enum.map (fun p : Nat × α => base + 1 + p.1)) : base < x := by
  obtain ⟨p, _, rfl⟩ := List.mem_map.mp h
  omega

lemma runAssigned_fst_nodup (mode : Mode) (E : ExternalState) :
    (((runReconcile mode E).assigned).map Prod.fst).Nodup := by
  rw [runAssigned_eq2, List.map_append]
  apply List.Nodup.append
  · exact matching_fst_nodup _ _ _
  · have h : ((unmatchedClusters (runMatching mode E) (runClusters mode E)).enum.map
        (fun p => (p.2.label, maxTopicId E.topics + 1 + p.1))).map Prod.fst =
        (unmatchedClusters (runMatching mode E) (runClusters mode E)).enum.map
          (fun p => p.2.label) := by
      rw [List.map_map]
      rfl
    rw [h, enum_map_snd_f]
    exact unmatched_labels_nodup mode E
  · intro x hx1 hx2
    obtain ⟨p, hp, rfl⟩ := List.mem_map.mp hx1
    have h : ((unmatchedClusters (runMatching mode E) (runClusters mode E)).enum.map
        (fun p => (p.2.label, maxTopicId E.topics + 1 + p.1))).map Prod.fst =
        (unmatchedClusters (runMatching mode E) (runClusters mode E)).map Cluster.label := by
      rw [List.map_map]
      exact enum_map_snd_f (unmatchedClusters (runMatching mode E) (runClusters mode E))
        Cluster.label
    rw [h] at hx2
    obtain ⟨c, hc, hcl⟩ := List.mem_map.mp hx2
    exact unmatched_not_matched hc p hp hcl.symm

lemma runAssigned_snd_nodup (mode : Mode) (E : ExternalState) :
    (((runReconcile mode E).assigned).map Prod.snd).Nodup := by
  rw [runAssigned_eq2, List.map_append]
  apply List.Nodup.append
  · exact matching_snd_nodup _ _ _
  · have h : ((unmatchedClusters (runMatching mode E) (runClusters mode E)).enum.map
        (fun p => (p.2.label, maxTopicId E.topics + 1 + p.1))).map Prod.snd =
        (unmatchedClusters (runMatching mode E) (runClusters mode E)).enum.map
          (fun p => maxTopicId E.topics + 1 + p.1) := by
      rw [List.map_map]
      rfl
    rw [h]
    exact enum_add_map_nodup _ _
  · intro x hx1 hx2
    obtain ⟨p, hp, rfl⟩ := List.mem_map.mp hx1
    have h : ((unmatchedClusters (runMatching mode E) (runClusters mode E)).enum.map
        (fun p => (p.2.label, maxTopicId E.topics + 1 + p.1))).map Prod.snd =
        (unmatchedClusters (runMatching mode E) (runClusters mode E)).enum.map
          (fun p => maxTopicId E.topics + 1 + p.1) := by
      rw [List.map_map]
      rfl
    rw [h] at hx2
    have hgt := enum_add_map_gt hx2
    have hle : p.2 ≤ maxTopicId E.topics :=
      matched_tid_le (l := p.1) (by rwa [Prod.mk.eta])
    omega

lemma updateTopicWith_of_some_none {m : List (Nat × Nat)} {clusters : List Cluster} {t : Topic}
    {p : Nat × Nat} (h1 : m.find? (fun q => q.2 == t.id) = some p)
    (h2 : clusters.find? (fun c => c.label == p.1) = none) :
    updateTopicWith m clusters t = { t with document_count := 0 } := by
  unfold updateTopicWith
  rw [h1]
  show (match clusters.find? (fun c => c.label == p.1) with
    | some c => refreshTopic c t
    | none => { t with document_count := 0 }) = { t with document_count := 0 }
  rw [h2]

lemma runAssigned_covers (mode : Mode) (E : ExternalState) :
    ∀ c ∈ runClusters mode E, ∃ tid, (c.label, tid) ∈ (runReconcile mode E).assigned := by
  intro c hc
  rcases hf : (runMatching mode E).find? (fun p => p.1 == c.label) with _ | q
  · have hcU : c ∈ unmatchedClusters (runMatching mode E) (runClusters mode E) := by
      unfold unmatchedClusters
      rw [List.mem_filter]
      exact ⟨hc, by simp [hf]⟩
    obtain ⟨i, hi⟩ := mem_enum_of_mem hcU
    refine ⟨maxTopicId E.topics + 1 + i, ?_⟩
    rw [runAssigned_eq2]
    exact List.mem_append_right _ (List.mem_map.mpr ⟨(i, c), hi, rfl⟩)
  · have hq : q.1 = c.label := by simpa using List.find?_some hf
    have hqm := List.mem_of_find?_eq_some hf
    refine ⟨q.2, ?_⟩
    rw [runAssigned_eq2]
    apply List.mem_append_left
    have hqe : (c.label, q.2) = q := by
      rw [← hq]
    rw [hqe]
    exact hqm

lemma clusters_find_of_mem {mode : Mode} {E : ExternalState} {c : Cluster} {l : Nat}
    (hc : c ∈ runClusters mode E) (hcl : c.label = l) :
    (runClusters mode E).find? (fun c2 => c2.label == l) = some c := by
  apply find?_eq_some_of_mem_of_unique hc (by simp [hcl])
  intro x hx hpx
  have hxl : x.label = l := by simpa using hpx
  exact nodup_map_inj_on (nodup_runClusters_labels mode E) hx hc (by rw [hxl, hcl])

lemma runAssigned_topic (mode : Mode) (E : ExternalState) :
    ∀ l tid, (l, tid) ∈ (runReconcile mode E).assigned →
      ∃ c ∈ runClusters mode E, c.label = l ∧
        ∃ t1 ∈ (runReconcile mode E).topics, t1.id = tid ∧ t1.keywords = c.keywords ∧
          t1.name = c.name ∧ t1.document_count = c.members.length := by
  intro l tid hmem
  rw [runAssigned_eq2] at hmem
  rcases List.mem_append.mp hmem with hM | hNew
  · obtain ⟨⟨c, hc, hcl⟩, ⟨t0, ht0, htid, hcount⟩⟩ := matched_topic_facts hM
    have hfind : (runMatching mode E).find? (fun q => q.2 == t0.id) = some (l, tid) := by
      rw [htid]
      exact find?_snd_of_nodup (matching_snd_nodup _ _ _) hM
    have hfindc := clusters_find_of_mem hc hcl
    have hupd : updateTopicWith (runMatching mode E) (runClusters mode E) t0 =
        refreshTopic c t0 := updateTopicWith_of_some hfind hfindc
    refine ⟨c, hc, hcl, refreshTopic c t0, ?_, htid, rfl, rfl, rfl⟩
    rw [runTopics_eq]
    apply List.mem_append_left
    rw [← hupd]
    exact List.mem_map_of_mem _ ht0
  · obtain ⟨i, c, hic, hl, htid⟩ := mem_newPairs hNew
    have hcU : c ∈ unmatchedClusters (runMatching mode E) (runClusters mode E) :=
      snd_mem_of_mem_enum hic
    refine ⟨c, unmatched_sub hcU, hl.symm,
      newTopicFor (maxTopicId E.topics) (i, c), ?_, htid.symm, rfl, rfl, rfl⟩
    rw [runTopics_eq]
    exact List.mem_append_right _ (List.mem_map_of_mem _ hic)

lemma updated_ids (mode : Mode) (E : ExternalState) :
    (E.topics.map (updateTopicWith (runMatching mode E) (runClusters mode E))).map
      (fun t => t.id) = E.topics.map (fun t => t.id) := by
  rw [List.map_map]
  apply List.map_congr_left
  intro t _
  exact updateTopicWith_id _ _ t

lemma newT_ids (mode : Mode) (E : ExternalState) :
    ((unmatchedClusters (runMatching mode E) (runClusters mode E)).enum.map
      (newTopicFor (maxTopicId E.topics))).map (fun t => t.id) =
      (unmatchedClusters (runMatching mode E) (runClusters mode E)).enum.map
        (fun p => maxTopicId E.topics + 1 + p.1) := by
  rw [List.map_map]
  rfl

lemma runTopics_ids_nodup (mode : Mode) (E : ExternalState) (hWF : WF E) :
    (((runReconcile mode E).topics).map (fun t => t.id)).Nodup := by
  rw [runTopics_eq, List.map_append]
  apply List.Nodup.append
  · rw [updated_ids]
    exact hWF.2.1
  · rw [newT_ids]
    exact enum_add_map_nodup _ _
  · intro x hx1 hx2
    rw [updated_ids] at hx1
    rw [newT_ids] at hx2
    have hgt := enum_add_map_gt hx2
    obtain ⟨t, ht, rfl⟩ := List.mem_map.mp hx1
    have hle : t.id ≤ maxTopicId E.topics :=
      le_foldl_max _ 0 t.id (List.mem_map_of_mem (fun t => t.id) ht)
    omega

lemma runTopics_active (mode : Mode) (E : ExternalState) :
    ∀ t1 ∈ (runReconcile mode E).topics, 0 < t1.document_count →
      ∃ l tid c, (l, tid) ∈ (runReconcile mode E).assigned ∧ t1.id = tid ∧
        c ∈ runClusters mode E ∧ c.label = l ∧ t1.keywords = c.keywords ∧
        t1.name = c.name ∧ t1.document_count = c.members.length := by
  intro t1 ht1 hcount
  rw [runTopics_eq] at ht1
  rcases List.mem_append.mp ht1 with hup | hnew
  · obtain ⟨t0, ht0, rfl⟩ := List.mem_map.mp hup
    rcases hf : (runMatching mode E).find? (fun q => q.2 == t0.id) with _ | q
    · rw [updateTopicWith_of_none hf] at hcount
      simp at hcount
    · rcases hfc : (runClusters mode E).find? (fun c2 => c2.label == q.1) with _ | c
      · rw [updateTopicWith_of_some_none hf hfc] at hcount
        simp at hcount
      · have hupd := updateTopicWith_of_some hf hfc
        rw [hupd]
        have hq : q ∈ runMatching mode E := List.mem_of_find?_eq_some hf
        have hq2 : q.2 = t0.id := by simpa using List.find?_some hf
        have hcl : c.label = q.1 := by simpa using List.find?_some hfc
        refine ⟨q.1, q.2, c, ?_, hq2.symm, List.mem_of_find?_eq_some hfc, hcl, rfl, rfl, rfl⟩
        rw [runAssigned_eq2]
        apply List.mem_append_left
        rw [Prod.mk.eta]
        exact hq
  · obtain ⟨⟨i, c⟩, hic, rfl⟩ := List.mem_map.mp hnew
    refine ⟨c.label, maxTopicId E.topics + 1 + i, c, ?_, rfl,
      unmatched_sub (snd_mem_of_mem_enum hic), rfl, rfl, rfl, rfl⟩
    rw [runAssigned_eq2]
    exact List.mem_append_right _ (List.mem_map.mpr ⟨(i, c), hic, rfl⟩)

/-! ## Document-assignment lemmas -/

lemma runDocs2_eq (mode : Mode) (E : ExternalState) :
    runDocs2 mode E =
      (runDocs1 mode E).map
        (assignDoc (runRvecs mode E) (runReconcile mode E).assigned) := rfl

lemma assign_topic_eq (mode : Mode) (E : ExternalState) (hWF : WF E) {d1 : Document}
    (hd1 : d1 ∈ runDocs1 mode E) (tid : Nat) :
    (assignDoc (runRvecs mode E) (runReconcile mode E).assigned d1).topic_id = some tid ↔
      (d1.embedding.isSome ∧ ∃ l, labelOfVec (runRvecs mode E) (reduceVec (embOf d1)) = some l ∧
        (l, tid) ∈ (runReconcile mode E).assigned) := by
  cases hemb : d1.embedding with
  | none =>
    rw [assignDoc_of_emb_none hemb, runDocs1_topic_none mode E hWF d1 hd1 hemb]
    simp [hemb]
  | some v =>
    rw [assignDoc_of_emb_some (by simp [hemb])]
    cases hlab : labelOfVec (runRvecs mode E) (reduceVec (embOf d1)) with
    | none => simp [hemb]
    | some l =>
      simp only [Option.some_bind, hemb, Option.isSome_some, true_and]
      constructor
      · intro h
        rcases hfind : ((runReconcile mode E).assigned).find? (fun p => p.1 == l) with _ | q
        · rw [hfind] at h
          cases h
        · rw [hfind] at h
          have hq1 : q.1 = l := by simpa using List.find?_some hfind
          have hq2 : q.2 = tid := by simpa using h
          refine ⟨l, rfl, ?_⟩
          have hqe : (l, tid) = q := by
            rw [← hq1, ← hq2]
          rw [hqe]
          exact List.mem_of_find?_eq_some hfind
      · rintro ⟨l2, hl2, hmem⟩
        have hll : l = l2 := Option.some.inj hl2
        subst hll
        rw [find?_fst_of_nodup (runAssigned_fst_nodup mode E) hmem]
        rfl

lemma runDocs2_filter_topic (mode : Mode) (E : ExternalState) (hWF : WF E) {l tid : Nat}
    (hmem : (l, tid) ∈ (runReconcile mode E).assigned) :
    (runDocs2 mode E).filter (fun d => d.topic_id == some tid) =
      (membersOf (runBatch mode E) (runRvecs mode E) l).map
        (assignDoc (runRvecs mode E) (runReconcile mode E).assigned) := by
  rw [runDocs2_eq, List.filter_map]
  congr 1
  have hB : membersOf (runBatch mode E) (runRvecs mode E) l =
      (runDocs1 mode E).filter (fun d =>
        (labelOfVec (runRvecs mode E) (reduceVec (embOf d)) == some l) && d.embedding.isSome) := by
    unfold membersOf runBatch batchOf
    rw [List.filter_filter]
  rw [hB]
  apply List.filter_congr
  intro d1 hd1
  show ((assignDoc (runRvecs mode E) (runReconcile mode E).assigned d1).topic_id == some tid) =
    ((labelOfVec (runRvecs mode E) (reduceVec (embOf d1)) == some l) && d1.embedding.isSome)
  rw [Bool.eq_iff_iff, beq_iff_eq, Bool.and_eq_true, beq_iff_eq]
  rw [assign_topic_eq mode E hWF hd1 tid]
  constructor
  · rintro ⟨hsome, l2, hl2, hmem2⟩
    have hl2l : l2 = l := congrArg Prod.fst
      (nodup_map_inj_on (runAssigned_snd_nodup mode E) hmem2 hmem rfl)
    exact ⟨hl2l ▸ hl2, hsome⟩
  · rintro ⟨hlab, hsome⟩
    exact ⟨hsome, l, hlab, hmem⟩

lemma memberIds_runDocs2 (mode : Mode) (E : ExternalState) (hWF : WF E) {l tid : Nat}
    (hmem : (l, tid) ∈ (runReconcile mode E).assigned) :
    memberIds (runDocs2 mode E) tid =
      (membersOf (runBatch mode E) (runRvecs mode E) l).map (fun d => d.id) := by
  unfold memberIds
  rw [runDocs2_filter_topic mode E hWF hmem, List.map_map]
  apply List.map_congr_left
  intro d _
  exact (assignDoc_fields _ _ d).1

lemma runDocs2_topic_some (mode : Mode) (E : ExternalState) (hWF : WF E) :
    ∀ d2 ∈ runDocs2 mode E, ∀ tid : Nat, d2.topic_id = some tid →
      ∃ l, (l, tid) ∈ (runReconcile mode E).assigned := by
  intro d2 hd2 tid htop
  rw [runDocs2_eq] at hd2
  obtain ⟨d1, hd1, rfl⟩ := List.mem_map.mp hd2
  obtain ⟨_, l, _, hmem⟩ := (assign_topic_eq mode E hWF hd1 tid).mp htop
  exact ⟨l, hmem⟩

lemma runNoise_topic_none (mode : Mode) (E : ExternalState) (hWF : WF E) :
    ∀ d2 ∈ runDocs2 mode E, d2.id ∈ runNoiseIds mode E → d2.topic_id = none := by
  intro d2 hd2 hid
  rw [runDocs2_eq] at hd2
  obtain ⟨d1, hd1, rfl⟩ := List.mem_map.mp hd2
  unfold runNoiseIds at hid
  obtain ⟨b, hb, hbid⟩ := List.mem_map.mp hid
  rw [List.mem_filter] at hb
  have hbD1 : b ∈ runDocs1 mode E := List.Sublist.mem hb.1 (runBatch_sublist mode E)
  have hid2 : (assignDoc (runRvecs mode E) (runReconcile mode E).assigned d1).id = d1.id :=
    (assignDoc_fields _ _ d1).1
  have hbd : b = d1 :=
    nodup_map_inj_on (runDocs1_ids_nodup mode E hWF) hbD1 hd1 (by rw [hbid, hid2])
  have hlab : labelOfVec (runRvecs mode E) (reduceVec (embOf d1)) = none := by
    rw [← hbd]
    simpa using hb.2
  cases hemb : d1.embedding with
  | none => rw [assignDoc_of_emb_none hemb]; exact runDocs1_topic_none mode E hWF d1 hd1 hemb
  | some v =>
    rw [assignDoc_of_emb_some (by simp [hemb]), hlab]
    rfl

/-! ## Temporal-aggregation lemmas -/

lemma runDocs2_ids (mode : Mode) (E : ExternalState) :
    (runDocs2 mode E).map (fun d => d.id) = E.docs.map (fun d => d.id) := by
  rw [runDocs2_eq, List.map_map]
  have h : (runDocs1 mode E).map
      ((fun d => d.id) ∘ assignDoc (runRvecs mode E) (runReconcile mode E).assigned) =
      (runDocs1 mode E).map (fun d => d.id) := by
    apply List.map_congr_left
    intro d _
    exact (assignDoc_fields _ _ d).1
  rw [h, runDocs1_ids]

lemma runDocs2_ids_nodup (mode : Mode) (E : ExternalState) (hWF : WF E) :
    ((runDocs2 mode E).map (fun d => d.id)).Nodup := by
  rw [runDocs2_ids]
  exact hWF.1

lemma seriesFor_topic_id (tid : Nat) (docs : List Document) :
    ∀ e ∈ seriesFor tid docs, e.topic_id = tid := by
  intro e he
  unfold seriesFor at he
  obtain ⟨b, _, rfl⟩ := List.mem_map.mp he
  rfl

lemma sum_seriesFor (tid : Nat) (docs : List Document) :
    ((seriesFor tid docs).map (fun e => e.count)).sum =
      ((docs.filter (fun d => d.topic_id == some tid)).filterMap
        (fun d => d.published_at)).length := by
  unfold seriesFor
  rw [List.map_map]
  have h : ((firstOccs (((docs.filter (fun d => d.topic_id == some tid)).filterMap
      (fun d => d.published_at)).map (fun ts => ts / bucketLen))).map
      ((fun e => e.count) ∘ (fun b =>
        ({ topic_id := tid, time_bucket := b,
           count := (((docs.filter (fun d => d.topic_id == some tid)).filterMap
             (fun d => d.published_at)).map (fun ts => ts / bucketLen)).count b }
          : TemporalDataPoint)))).sum =
      ((firstOccs (((docs.filter (fun d => d.topic_id == some tid)).filterMap
        (fun d => d.published_at)).map (fun ts => ts / bucketLen))).map
        (fun b => (((docs.filter (fun d => d.topic_id == some tid)).filterMap
          (fun d => d.published_at)).map (fun ts => ts / bucketLen)).count b)).sum := rfl
  rw [h, sum_count_firstOccs, List.length_map]

lemma flatMap_series_filter_nil {act : List Nat} {docs : List Document} {tid : Nat}
    (h : tid ∉ act) :
    (act.flatMap (fun t => seriesFor t docs)).filter (fun e => e.topic_id == tid) = [] := by
  rw [List.filter_eq_nil_iff]
  intro e he
  obtain ⟨t2, ht2, he2⟩ := List.mem_flatMap.mp he
  rw [seriesFor_topic_id t2 docs e he2]
  simp
  intro heq
  exact h (heq ▸ ht2)

lemma flatMap_series_filter {act : List Nat} {docs : List Document} {tid : Nat}
    (hnd : act.Nodup) (h : tid ∈ act) :
    (act.flatMap (fun t => seriesFor t docs)).filter (fun e => e.topic_id == tid) =
      seriesFor tid docs := by
  induction act with
  | nil => cases h
  | cons a rest ih =>
    rw [List.flatMap_cons, List.filter_append]
    rcases List.mem_cons.mp h with rfl | hmem
    · have h1 : (seriesFor tid docs).filter (fun e => e.topic_id == tid) =
          seriesFor tid docs :=
        List.filter_eq_self.mpr (fun e he => by
          rw [seriesFor_topic_id tid docs e he]; simp)
      have h2 : (rest.flatMap (fun t => seriesFor t docs)).filter
          (fun e => e.topic_id == tid) = [] :=
        flatMap_series_filter_nil (List.nodup_cons.mp hnd).1
      rw [h1, h2, List.append_nil]
    · have hne : a ≠ tid := fun he => (List.nodup_cons.mp hnd).1 (he ▸ hmem)
      have h1 : (seriesFor a docs).filter (fun e => e.topic_id == tid) = [] := by
        rw [List.filter_eq_nil_iff]
        intro e he
        rw [seriesFor_topic_id a docs e he]
        simp [hne]
      rw [h1, List.nil_append]
      exact ih (List.nodup_cons.mp hnd).2 hmem

lemma mem_activeIds {topics : List Topic} {tid : Nat} :
    tid ∈ activeIds topics ↔ ∃ t ∈ topics, 0 < t.document_count ∧ t.id = tid := by
  unfold activeIds
  rw [List.mem_map]
  constructor
  · rintro ⟨t, ht, rfl⟩
    rw [List.mem_filter] at ht
    exact ⟨t, ht.1, by simpa using ht.2, rfl⟩
  · rintro ⟨t, ht, hc, rfl⟩
    exact ⟨t, List.mem_filter.mpr ⟨ht, by simpa using hc⟩, rfl⟩

lemma activeIds_nodup (mode : Mode) (E : ExternalState) (hWF : WF E) :
    (activeIds (runReconcile mode E).topics).Nodup := by
  unfold activeIds
  exact List.Nodup.sublist (List.Sublist.map _ (List.filter_sublist _))
    (runTopics_ids_nodup mode E hWF)

lemma retained_filter_eq {temporal : List TemporalDataPoint} {act : List Nat} {tid : Nat}
    (h : tid ∉ act) :
    (temporal.filter (fun e => decide (¬ e.topic_id ∈ act))).filter
      (fun e => e.topic_id == tid) = temporal.filter (fun e => e.topic_id == tid) := by
  rw [List.filter_filter]
  apply List.filter_congr
  intro e _
  by_cases he : e.topic_id = tid
  · simp [he, h]
  · simp [he]

lemma temporal_filter_run (mode : Mode) (E : ExternalState) (hWF : WF E) (tid : Nat) :
    (pipelineCore mode E).temporal.filter (fun e => e.topic_id == tid) =
      (if tid ∈ activeIds (runReconcile mode E).topics then
        seriesFor tid (runDocs2 mode E)
      else E.temporal.filter (fun e => e.topic_id == tid)) := by
  rw [(pipelineCore_fields mode E).2.2, List.filter_append]
  by_cases hact : tid ∈ activeIds (runReconcile mode E).topics
  · rw [if_pos hact]
    have h1 : (E.temporal.filter (fun e =>
        decide (¬ e.topic_id ∈ activeIds (runReconcile mode E).topics))).filter
        (fun e => e.topic_id == tid) = [] := by
      rw [List.filter_filter, List.filter_eq_nil_iff]
      intro e _
      simp only [Bool.and_eq_true, beq_iff_eq, decide_eq_true_eq]
      intro hcontra
      exact hcontra.2 (hcontra.1 ▸ hact)
    rw [h1, List.nil_append]
    exact flatMap_series_filter (activeIds_nodup mode E hWF) hact
  · rw [if_neg hact, retained_filter_eq hact, flatMap_series_filter_nil hact,
      List.append_nil]

lemma length_filterMap_published_le (l : List Document) :
    (l.filterMap (fun d => d.published_at)).length ≤ l.length := by
  induction l with
  | nil => exact le_refl 0
  | cons d t ih =>
    rw [List.filterMap_cons]
    cases d.published_at with
    | none => exact le_trans ih (by simp)
    | some ts => simpa using ih

lemma filterMap_published_lt {l : List Document}
    (h : (l.filterMap (fun d => d.published_at)).length < l.length) :
    ∃ d ∈ l, d.published_at = none := by
  induction l with
  | nil => simp at h
  | cons d t ih =>
    rw [List.filterMap_cons] at h
    cases hp : d.published_at with
    | none => exact ⟨d, List.mem_cons_self _ _, hp⟩
    | some ts =>
      rw [hp] at h
      simp only [List.length_cons] at h
      obtain ⟨d2, hd2, hp2⟩ := ih (by omega)
      exact ⟨d2, List.mem_cons_of_mem _ hd2, hp2⟩

/-- C4: after a successful retrain every document with a topic reference points
at an existing topic, every document the clusterer labelled noise in that run
has no topic reference, and no noise document is counted in any current
temporal series. -/
theorem noise_invariant_spec (mode : Mode) (pOk : Bool) (E E1 : ExternalState)
    (hWF : WF E) (hok : pipelineCommit mode pOk E = .ok E1) :
    (∀ d ∈ E1.docs, ∀ tid : Nat, d.topic_id = some tid → ∃ t ∈ E1.topics, t.id = tid)
    ∧ (∀ d ∈ E1.docs, d.id ∈ runNoiseIds mode E → d.topic_id = none)
    ∧ (∀ d ∈ E1.docs, d.id ∈ runNoiseIds mode E → ∀ tid : Nat,
        d.id ∉ contributors E1 tid) := by
  obtain ⟨rfl, h2, hpok⟩ := pipelineCommit_ok hok
  have hdocs : (pipelineCore mode E).docs = runDocs2 mode E := rfl
  have htopics : (pipelineCore mode E).topics = (runReconcile mode E).topics := rfl
  refine ⟨?_, ?_, ?_⟩
  · intro d hd tid htop
    rw [hdocs] at hd
    obtain ⟨l, hl⟩ := runDocs2_topic_some mode E hWF d hd tid htop
    obtain ⟨c, hc, hcl, t1, ht1, htid, _⟩ := runAssigned_topic mode E l tid hl
    rw [htopics]
    exact ⟨t1, ht1, htid⟩
  · intro d hd hn
    rw [hdocs] at hd
    exact runNoise_topic_none mode E hWF d hd hn
  · intro d hd hn tid hcontrib
    rw [hdocs] at hd
    have htop := runNoise_topic_none mode E hWF d hd hn
    unfold contributors at hcontrib
    obtain ⟨d2, hd2, hid⟩ := List.mem_map.mp hcontrib
    rw [List.mem_filter] at hd2
    have hd2docs : d2 ∈ runDocs2 mode E := by rw [← hdocs]; exact hd2.1
    have hdd : d2 = d :=
      nodup_map_inj_on (runDocs2_ids_nodup mode E hWF) hd2docs hd hid
    have hpred := hd2.2
    rw [hdd, htop] at hpred
    simp at hpred

/-- Witness for C4: in the concrete two-cluster run, the document assigned to
topic 1 indeed references an existing topic. -/
theorem noise_invariant_spec_witness :
    ∃ t ∈ (pipelineCore .incremental exState).topics, t.id = 1 :=
  (noise_invariant_spec .incremental true exState (pipelineCore .incremental exState)
      (by decide) rfl).1
    { id := 1, source_type := .article, title := [],
      full_content := ("apple pie sale".toList), url := [], published_at := some 0,
      embedding := some (embedVec ("apple pie sale".toList)), topic_id := some 1 }
    (by decide) 1 rfl

/-- C5: a topic left unmatched by a retrain is retained as dormant — same id,
keywords and name, `document_count` recomputed to 0 — and its previously
persisted temporal series is left untouched. -/
theorem dormancy_spec (mode : Mode) (pOk : Bool) (E E1 : ExternalState)
    (hWF : WF E) (hok : pipelineCommit mode pOk E = .ok E1) :
    ∀ t ∈ E.topics, t.id ∈ (runReconcile mode E).dormantIds →
      ∃ t1 ∈ E1.topics, t1.id = t.id ∧ t1.document_count = 0 ∧
        t1.keywords = t.keywords ∧ t1.name = t.name ∧
        E1.temporal.filter (fun e => e.topic_id == t.id) =
          E.temporal.filter (fun e => e.topic_id == t.id) := by
  obtain ⟨rfl, h2, hpok⟩ := pipelineCommit_ok hok
  intro t ht hdorm
  rw [runDormant_eq] at hdorm
  obtain ⟨t2, ht2, hid2⟩ := List.mem_map.mp hdorm
  rw [List.mem_filter] at ht2
  have ht2t : t2 = t := nodup_map_inj_on hWF.2.1 ht2.1 ht hid2
  have hfind : (runMatching mode E).find? (fun p => p.2 == t.id) = none := by
    rw [← ht2t]
    exact Option.isNone_iff_eq_none.mp ht2.2
  have hupd : updateTopicWith (runMatching mode E) (runClusters mode E) t =
      { t with document_count := 0 } := updateTopicWith_of_none hfind
  have hmem : ({ t with document_count := 0 } : Topic) ∈ (runReconcile mode E).topics := by
    rw [runTopics_eq]
    apply List.mem_append_left
    rw [← hupd]
    exact List.mem_map_of_mem _ ht
  have hnotact : t.id ∉ activeIds (runReconcile mode E).topics := by
    intro hact
    obtain ⟨t3, ht3, hc3, hid3⟩ := mem_activeIds.mp hact
    have h33 : t3 = { t with document_count := 0 } :=
      nodup_map_inj_on (runTopics_ids_nodup mode E hWF) ht3 hmem (by rw [hid3])
    rw [h33] at hc3
    simp at hc3
  refine ⟨{ t with document_count := 0 }, hmem, rfl, rfl, rfl, rfl, ?_⟩
  have htemp := temporal_filter_run mode E hWF t.id
  rw [if_neg hnotact] at htemp
  exact htemp

/-- Witness for C5: the concrete dormant topic keeps its identity, keywords and
historical series after the run. -/
theorem dormancy_spec_witness :
    ∃ t1 ∈ (pipelineCore .incremental exStateDormant).topics,
      t1.id = 1 ∧ t1.document_count = 0 ∧ t1.keywords = [("x".toList)] ∧
      t1.name = ("old".toList) ∧
      (pipelineCore .incremental exStateDormant).temporal.filter (fun e => e.topic_id == 1) =
        exStateDormant.temporal.filter (fun e => e.topic_id == 1) :=
  dormancy_spec .incremental true exStateDormant (pipelineCore .incremental exStateDormant)
    (by decide) rfl
    { id := 1, name := ("old".toList), keywords := [("x".toList)], created_at := 0,
      document_count := 5 }
    (by decide) (by decide)

/-- Amended C3: for every topic with at least one current member after a
successful retrain, the summed temporal counts never exceed its current
document membership, and a strict shortfall can only come from member
documents with a missing/unparseable publish timestamp.  (Dormant topics are
exempt: their historical series are retained untouched while their
`document_count` is recomputed to 0.) -/
theorem temporal_sum_amended (mode : Mode) (pOk : Bool) (E E1 : ExternalState)
    (hWF : WF E) (hok : pipelineCommit mode pOk E = .ok E1) :
    ∀ t ∈ E1.topics, 0 < t.document_count →
      sumCounts E1.temporal t.id ≤ t.document_count ∧
        (sumCounts E1.temporal t.id < t.document_count →
          ∃ d ∈ E1.docs, d.topic_id = some t.id ∧ d.published_at = none) := by
  obtain ⟨rfl, h2, hpok⟩ := pipelineCommit_ok hok
  intro t ht hcount
  have htopics : (pipelineCore mode E).topics = (runReconcile mode E).topics := rfl
  rw [htopics] at ht
  obtain ⟨l, tid, c, hassigned, htid, hc, hcl, _, _, hcnt⟩ := runTopics_active mode E t ht hcount
  have hact : t.id ∈ activeIds (runReconcile mode E).topics :=
    mem_activeIds.mpr ⟨t, ht, hcount, rfl⟩
  have hsum : sumCounts (pipelineCore mode E).temporal t.id =
      ((seriesFor t.id (runDocs2 mode E)).map (fun e => e.count)).sum := by
    unfold sumCounts
    rw [temporal_filter_run mode E hWF t.id, if_pos hact]
  have hassigned2 : (l, t.id) ∈ (runReconcile mode E).assigned := htid ▸ hassigned
  have hfilter : (runDocs2 mode E).filter (fun d => d.topic_id == some t.id) =
      (membersOf (runBatch mode E) (runRvecs mode E) l).map
        (assignDoc (runRvecs mode E) (runReconcile mode E).assigned) :=
    runDocs2_filter_topic mode E hWF hassigned2
  have hcmem : c.members = membersOf (runBatch mode E) (runRvecs mode E) l := by
    obtain ⟨l2, _, rfl⟩ := (mem_runClusters mode E c).mp hc
    have hl2 : l2 = l := by
      have := (mkCluster_fields (runBatch mode E) (runRvecs mode E) (runDocs1 mode E) l2).1
      rw [← hcl, this]
    rw [hl2]
    exact (mkCluster_fields _ _ _ l).2.1
  have hlen : ((runDocs2 mode E).filter (fun d => d.topic_id == some t.id)).length =
      t.document_count := by
    rw [hfilter, List.length_map, ← hcmem, ← hcnt]
  rw [hsum, sum_seriesFor]
  constructor
  · calc ((((runDocs2 mode E).filter (fun d => d.topic_id == some t.id)).filterMap
        (fun d => d.published_at)).length)
        ≤ (((runDocs2 mode E)).filter (fun d => d.topic_id == some t.id)).length :=
          length_filterMap_published_le _
      _ = t.document_count := hlen
  · intro hlt
    have hlt2 : ((((runDocs2 mode E).filter (fun d => d.topic_id == some t.id)).filterMap
        (fun d => d.published_at)).length) <
        (((runDocs2 mode E)).filter (fun d => d.topic_id == some t.id)).length := by
      rw [hlen]
      exact hlt
    obtain ⟨d, hd, hp⟩ := filterMap_published_lt hlt2
    rw [List.mem_filter] at hd
    exact ⟨d, hd.1, by simpa using hd.2, hp⟩

/-- Witness for the amended C3 at the concrete two-cluster run. -/
theorem temporal_sum_amended_witness :
    sumCounts (pipelineCore .incremental exState).temporal
        ((pipelineCore .incremental exState).topics.get ⟨0, by decide⟩).id ≤
      ((pipelineCore .incremental exState).topics.get ⟨0, by decide⟩).document_count :=
  (temporal_sum_amended .incremental true exState (pipelineCore .incremental exState)
      (by decide) rfl
      ((pipelineCore .incremental exState).topics.get ⟨0, by decide⟩)
      (by decide) (by decide)).1

/-- Counterexample to C3 as stated: after a successful retrain on a concrete
state, the dormant topic keeps its historical temporal point (count 1) while
its `document_count` is recomputed to 0, so the summed temporal counts exceed
the current membership — and not because of any missing timestamp. -/
theorem temporal_sum_bound_cex :
    WF exStateDormant
    ∧ pipelineCommit .incremental true exStateDormant =
        .ok (pipelineCore .incremental exStateDormant)
    ∧ ∃ t ∈ (pipelineCore .incremental exStateDormant).topics,
        t.document_count < sumCounts (pipelineCore .incremental exStateDormant).temporal t.id := by
  refine ⟨by decide, rfl, ?_⟩
  refine ⟨{ id := 1, name := ("old".toList), keywords := [("x".toList)], created_at := 0,
            document_count := 0 }, by decide, by decide⟩

/-! ## Idempotence lemmas: the second incremental run reproduces the first -/

lemma embedDoc_incr_of_err {d : Document} {e : PipelineError} (hemb : d.embedding = none)
    (herr : embed d.full_content = .error e) : embedDoc .incremental d = d := by
  rw [embedDoc_incr_none d hemb, herr]

lemma embOf_assign (rvecs : List (List Int)) (assigned : List (Nat × Nat)) (d : Document) :
    embOf (assignDoc rvecs assigned d) = embOf d := by
  unfold embOf
  rw [(assignDoc_fields rvecs assigned d).2.2.1]

lemma refreshTopic_eq_self {c : Cluster} {t : Topic} (h1 : c.name = t.name)
    (h2 : c.keywords = t.keywords) (h3 : c.members.length = t.document_count) :
    refreshTopic c t = t := by
  unfold refreshTopic
  rw [h1, h2, h3]

lemma dormant_eq_self {t : Topic} (h : t.document_count = 0) :
    ({ t with document_count := 0 } : Topic) = t := by
  rw [← h]

lemma filter_not_mem_flatMap_series {act : List Nat} {docs : List Document} :
    (act.flatMap (fun t => seriesFor t docs)).filter
      (fun e => decide (¬ e.topic_id ∈ act)) = [] := by
  rw [List.filter_eq_nil_iff]
  intro e he
  obtain ⟨t2, ht2, he2⟩ := List.mem_flatMap.mp he
  rw [seriesFor_topic_id t2 docs e he2]
  simp
  exact ht2

lemma filter_idem {α : Type} (l : List α) (p : α → Bool) :
    (l.filter p).filter p = l.filter p := by
  rw [List.filter_filter]
  apply List.filter_congr
  intro a _
  simp

lemma runDocs1_idem (E : ExternalState) :
    runDocs1 .incremental (pipelineCore .incremental E) =
      (pipelineCore .incremental E).docs := by
  show embedStage .incremental (runDocs2 .incremental E) = runDocs2 .incremental E
  rw [runDocs2_eq]
  unfold embedStage
  rw [List.map_map]
  apply List.map_congr_left
  intro d1 hd1
  have hd1m : d1 ∈ E.docs.map (embedDoc .incremental) := hd1
  obtain ⟨d0, hd0, rfl⟩ := List.mem_map.mp hd1m
  show embedDoc .incremental
    (assignDoc (runRvecs .incremental E) (runReconcile .incremental E).assigned
      (embedDoc .incremental d0)) =
    assignDoc (runRvecs .incremental E) (runReconcile .incremental E).assigned
      (embedDoc .incremental d0)
  set d2 := assignDoc (runRvecs .incremental E) (runReconcile .incremental E).assigned
    (embedDoc .incremental d0) with hd2
  cases hemb : d2.embedding with
  | some v => exact embedDoc_incr_some d2 v hemb
  | none =>
    have hemb1 : (embedDoc .incremental d0).embedding = none := by
      rw [hd2] at hemb
      rw [← (assignDoc_fields _ _ (embedDoc .incremental d0)).2.2.1]
      exact hemb
    obtain ⟨_, _, herr⟩ := embedDoc_emb_none hemb1
    have hcontent : d2.full_content = d0.full_content := by
      rw [hd2, (assignDoc_fields _ _ _).2.1, (embedDoc_fields _ _).2.1]
    exact embedDoc_incr_of_err hemb (by rw [hcontent]; exact herr)

lemma runBatch_idem (E : ExternalState) :
    runBatch .incremental (pipelineCore .incremental E) =
      (runBatch .incremental E).map
        (assignDoc (runRvecs .incremental E) (runReconcile .incremental E).assigned) := by
  show batchOf (runDocs1 .incremental (pipelineCore .incremental E)) = _
  rw [runDocs1_idem]
  show (runDocs2 .incremental E).filter (fun d => d.embedding.isSome) = _
  rw [runDocs2_eq, List.filter_map]
  unfold runBatch batchOf
  congr 1
  apply List.filter_congr
  intro d _
  show (assignDoc (runRvecs .incremental E) (runReconcile .incremental E).assigned
    d).embedding.isSome = d.embedding.isSome
  rw [(assignDoc_fields _ _ d).2.2.1]

lemma runRvecs_idem (E : ExternalState) :
    runRvecs .incremental (pipelineCore .incremental E) = runRvecs .incremental E := by
  rw [runRvecs_eq, runRvecs_eq, runBatch_idem, List.map_map]
  apply List.map_congr_left
  intro d _
  show reduceVec (embOf (assignDoc _ _ d)) = reduceVec (embOf d)
  rw [embOf_assign]

lemma runLabels_idem (E : ExternalState) :
    runLabels .incremental (pipelineCore .incremental E) = runLabels .incremental E := by
  rw [runLabels_eq, runLabels_eq, runBatch_idem, runRvecs_idem, List.map_map]
  apply List.map_congr_left
  intro d _
  show labelOfVec (runRvecs .incremental E) (reduceVec (embOf (assignDoc _ _ d))) = _
  rw [embOf_assign]

lemma runLabelSet_idem (E : ExternalState) :
    runLabelSet .incremental (pipelineCore .incremental E) = runLabelSet .incremental E := by
  unfold runLabelSet labelSet
  rw [runLabels_idem]

lemma membersOf_idem (E : ExternalState) (l : Nat) :
    membersOf (runBatch .incremental (pipelineCore .incremental E))
        (runRvecs .incremental (pipelineCore .incremental E)) l =
      (membersOf (runBatch .incremental E) (runRvecs .incremental E) l).map
        (assignDoc (runRvecs .incremental E) (runReconcile .incremental E).assigned) := by
  unfold membersOf
  rw [runBatch_idem, runRvecs_idem, List.filter_map]
  congr 1
  apply List.filter_congr
  intro d _
  show ((labelOfVec (runRvecs .incremental E) (reduceVec (embOf (assignDoc _ _ d)))
    == some l) : Bool) = _
  rw [embOf_assign]

lemma countP_congr2 {α : Type} {p q : α → Bool} :
    ∀ {l : List α}, (∀ a ∈ l, p a = q a) → l.countP p = l.countP q := by
  intro l
  induction l with
  | nil => intro _; rfl
  | cons a t ih =>
    intro h
    rw [List.countP_cons, List.countP_cons, h a (List.mem_cons_self _ _),
      ih (fun x hx => h x (List.mem_cons_of_mem _ hx))]

lemma docFreq_map {f : Document → Document} (hf : ∀ d, (f d).full_content = d.full_content)
    (w : List Char) (corpus : List Document) :
    docFreq w (corpus.map f) = docFreq w corpus := by
  unfold docFreq
  rw [List.countP_map]
  apply countP_congr2
  intro d _
  show ((wordsOf (f d).full_content).contains w : Bool) = _
  rw [hf d]

lemma kwScore_map {f : Document → Document} (hf : ∀ d, (f d).full_content = d.full_content)
    (w : List Char) (mem corpus : List Document) :
    kwScore w (mem.map f) (corpus.map f) = kwScore w mem corpus := by
  unfold kwScore
  rw [docFreq_map hf, List.map_map]
  have hmap : mem.map ((fun d => (wordsOf d.full_content).count w) ∘ f) =
      mem.map (fun d => (wordsOf d.full_content).count w) := by
    apply List.map_congr_left
    intro d _
    show (wordsOf (f d).full_content).count w = _
    rw [hf d]
  rw [hmap]

lemma kwRank_map_iff {f : Document → Document} (hf : ∀ d, (f d).full_content = d.full_content)
    (mem corpus : List Document) (a b : List Char) :
    kwRank (mem.map f) (corpus.map f) a b ↔ kwRank mem corpus a b := by
  unfold kwRank
  rw [kwScore_map hf a, kwScore_map hf b]

lemma topicKeywords_map {f : Document → Document}
    (hf : ∀ d, (f d).full_content = d.full_content) (mem corpus : List Document) :
    topicKeywords (mem.map f) (corpus.map f) = topicKeywords mem corpus := by
  unfold topicKeywords
  have hcand : ((mem.map f).map (fun d => wordsOf d.full_content)).flatten =
      (mem.map (fun d => wordsOf d.full_content)).flatten := by
    rw [List.map_map]
    congr 1
    apply List.map_congr_left
    intro d _
    show wordsOf (f d).full_content = _
    rw [hf d]
  rw [hcand]
  exact congrArg (List.take keywordCount)
    (insertionSort_congr (kwRank (mem.map f) (corpus.map f)) (kwRank mem corpus)
      (kwRank_map_iff hf mem corpus) _)

lemma keywords2_eq (E : ExternalState) (l : Nat) :
    topicKeywords
        (membersOf (runBatch .incremental (pipelineCore .incremental E))
          (runRvecs .incremental (pipelineCore .incremental E)) l)
        (runDocs1 .incremental (pipelineCore .incremental E)) =
      topicKeywords (membersOf (runBatch .incremental E) (runRvecs .incremental E) l)
        (runDocs1 .incremental E) := by
  rw [membersOf_idem, runDocs1_idem]
  show topicKeywords
    ((membersOf (runBatch .incremental E) (runRvecs .incremental E) l).map
      (assignDoc (runRvecs .incremental E) (runReconcile .incremental E).assigned))
    (runDocs2 .incremental E) = _
  rw [runDocs2_eq]
  exact topicKeywords_map (fun d => (assignDoc_fields _ _ d).2.1) _ _

lemma lookupTid_spec {mode : Mode} {E : ExternalState} {l tid : Nat}
    (h : (l, tid) ∈ (runReconcile mode E).assigned) :
    lookupTid (runReconcile mode E).assigned l = tid := by
  unfold lookupTid
  rw [find?_fst_of_nodup (runAssigned_fst_nodup mode E) h]
  rfl

lemma labelSet_assigned (mode : Mode) (E : ExternalState) :
    ∀ l ∈ runLabelSet mode E,
      (l, lookupTid (runReconcile mode E).assigned l) ∈ (runReconcile mode E).assigned := by
  intro l hl
  have hc : mkCluster (runBatch mode E) (runRvecs mode E) (runDocs1 mode E) l ∈
      runClusters mode E := (mem_runClusters mode E _).mpr ⟨l, hl, rfl⟩
  obtain ⟨tid, htid⟩ := runAssigned_covers mode E _ hc
  have htid2 : (l, tid) ∈ (runReconcile mode E).assigned := htid
  rw [lookupTid_spec htid2]
  exact htid2

lemma topicFor_label (mode : Mode) (E : ExternalState) (l : Nat)
    (hl : l ∈ runLabelSet mode E) :
    ∃ t1 ∈ (runReconcile mode E).topics,
      t1.id = lookupTid (runReconcile mode E).assigned l ∧
      t1.keywords = topicKeywords (membersOf (runBatch mode E) (runRvecs mode E) l)
        (runDocs1 mode E) ∧
      t1.name = topicName (topicKeywords (membersOf (runBatch mode E) (runRvecs mode E) l)
        (runDocs1 mode E)) ∧
      t1.document_count = (membersOf (runBatch mode E) (runRvecs mode E) l).length := by
  have hpair := labelSet_assigned mode E l hl
  obtain ⟨c, hc, hcl, t1, ht1, htid, hkw, hname, hcnt⟩ :=
    runAssigned_topic mode E l (lookupTid (runReconcile mode E).assigned l) hpair
  obtain ⟨l2, hl2, rfl⟩ := (mem_runClusters mode E c).mp hc
  have hl2l : l2 = l := by
    have hlab := (mkCluster_fields (runBatch mode E) (runRvecs mode E) (runDocs1 mode E) l2).1
    rw [← hcl, hlab]
  subst hl2l
  exact ⟨t1, ht1, htid, hkw, hname, hcnt⟩

lemma runTopics_nodup (mode : Mode) (E : ExternalState) (hWF : WF E) :
    ((runReconcile mode E).topics).Nodup :=
  List.Nodup.of_map _ (runTopics_ids_nodup mode E hWF)

lemma members_map_id_ne_nil (mode : Mode) (E : ExternalState) {l : Nat}
    (hl : l ∈ runLabelSet mode E) :
    (membersOf (runBatch mode E) (runRvecs mode E) l).map (fun d => d.id) ≠ [] := by
  intro hnil
  have := membersOf_length_pos mode E l hl
  rw [← List.length_map (membersOf (runBatch mode E) (runRvecs mode E) l) (fun d => d.id),
    hnil] at this
  simp at this

lemma candPairs_idem (E : ExternalState) (hWF : WF E) :
    candPairs (runClusters .incremental (pipelineCore .incremental E))
        (pipelineCore .incremental E).topics
        (runDocs1 .incremental (pipelineCore .incremental E)) =
      (runClusters .incremental (pipelineCore .incremental E)).map (fun c2 =>
        { clusterLabel := c2.label,
          topicId := lookupTid (runReconcile .incremental E).assigned c2.label,
          score := 1000,
          overlap := overlapCount (c2.members.map (fun d => d.id))
            (memberIds (runDocs1 .incremental (pipelineCore .incremental E))
              (lookupTid (runReconcile .incremental E).assigned c2.label)) }) := by
  unfold candPairs
  apply flatMap_singleton_map
  intro c2 hc2
  obtain ⟨l, hlLS2, rfl⟩ :=
    (mem_runClusters .incremental (pipelineCore .incremental E) c2).mp hc2
  have hl : l ∈ runLabelSet .incremental E := by
    rw [← runLabelSet_idem E]
    exact hlLS2
  obtain ⟨t1, ht1T, htid, hkw, hname, hcnt⟩ := topicFor_label .incremental E l hl
  have hc2lab : (mkCluster (runBatch .incremental (pipelineCore .incremental E))
      (runRvecs .incremental (pipelineCore .incremental E))
      (runDocs1 .incremental (pipelineCore .incremental E)) l).label = l := rfl
  have hc2ids : (mkCluster (runBatch .incremental (pipelineCore .incremental E))
      (runRvecs .incremental (pipelineCore .incremental E))
      (runDocs1 .incremental (pipelineCore .incremental E)) l).members.map (fun d => d.id) =
      (membersOf (runBatch .incremental E) (runRvecs .incremental E) l).map
        (fun d => d.id) := by
    show (membersOf (runBatch .incremental (pipelineCore .incremental E))
      (runRvecs .incremental (pipelineCore .incremental E)) l).map (fun d => d.id) = _
    rw [membersOf_idem, List.map_map]
    apply List.map_congr_left
    intro d _
    exact (assignDoc_fields _ _ d).1
  have hc2kw : (mkCluster (runBatch .incremental (pipelineCore .incremental E))
      (runRvecs .incremental (pipelineCore .incremental E))
      (runDocs1 .incremental (pipelineCore .incremental E)) l).keywords =
      topicKeywords (membersOf (runBatch .incremental E) (runRvecs .incremental E) l)
        (runDocs1 .incremental E) := keywords2_eq E l
  have hprev : memberIds (runDocs1 .incremental (pipelineCore .incremental E)) t1.id =
      (membersOf (runBatch .incremental E) (runRvecs .incremental E) l).map
        (fun d => d.id) := by
    rw [runDocs1_idem, htid]
    exact memberIds_runDocs2 .incremental E hWF (labelSet_assigned .incremental E l hl)
  have hsim : similarity (mkCluster (runBatch .incremental (pipelineCore .incremental E))
      (runRvecs .incremental (pipelineCore .incremental E))
      (runDocs1 .incremental (pipelineCore .incremental E)) l)
      (memberIds (runDocs1 .incremental (pipelineCore .incremental E)) t1.id) t1 = 1000 := by
    unfold similarity
    rw [hprev, hc2ids, jaccard1000_self, hc2kw, hkw, jaccard1000_self]
  apply filterMap_singleton_of_unique
    (List.Nodup.filter _ (runTopics_nodup .incremental E hWF))
  · show t1 ∈ List.filter _ (pipelineCore .incremental E).topics
    rw [List.mem_filter]
    refine ⟨ht1T, ?_⟩
    simp only [decide_eq_true_eq]
    rw [hcnt]
    exact membersOf_length_pos .incremental E l hl
  · show (if simThreshold ≤ similarity _ (memberIds _ t1.id) t1 then _ else none) = _
    rw [if_pos (by rw [hsim]; decide)]
    rw [hsim, htid]
    rfl
  · intro t htmem htne
    rw [List.mem_filter] at htmem
    have hcount : 0 < t.document_count := by
      have := htmem.2
      simpa using this
    obtain ⟨l2, tid2, c2b, hA2, htid2, hc2b, hcl2, hkw2, hname2, hcnt2⟩ :=
      runTopics_active .incremental E t htmem.1 hcount
    have hll2 : l2 ≠ l := by
      intro heq
      subst heq
      have htt : tid2 = lookupTid (runReconcile .incremental E).assigned l2 :=
        (lookupTid_spec hA2).symm
      have hsameid : t.id = t1.id := by
        rw [htid2, htt, htid]
      have : t = t1 :=
        nodup_map_inj_on (runTopics_ids_nodup .incremental E hWF) htmem.1 ht1T hsameid
      exact htne this
    have hprev2 : memberIds (runDocs1 .incremental (pipelineCore .incremental E)) t.id =
        (membersOf (runBatch .incremental E) (runRvecs .incremental E) l2).map
          (fun d => d.id) := by
      rw [runDocs1_idem, htid2]
      exact memberIds_runDocs2 .incremental E hWF hA2
    have hjmem : jaccard1000 ((mkCluster (runBatch .incremental (pipelineCore .incremental E))
        (runRvecs .incremental (pipelineCore .incremental E))
        (runDocs1 .incremental (pipelineCore .incremental E)) l).members.map (fun d => d.id))
        (memberIds (runDocs1 .incremental (pipelineCore .incremental E)) t.id) = 0 := by
      rw [hprev2, hc2ids]
      apply jaccard1000_disjoint
      · exact members_map_id_ne_nil .incremental E hl
      · intro x hx
        exact membersOf_id_disjoint .incremental E hWF (fun h => hll2 h.symm) x hx
    have hjkw := jaccard1000_le (mkCluster (runBatch .incremental (pipelineCore .incremental E))
        (runRvecs .incremental (pipelineCore .incremental E))
        (runDocs1 .incremental (pipelineCore .incremental E)) l).keywords t.keywords
    show (if simThreshold ≤ similarity _ (memberIds _ t.id) t then _ else none) = none
    rw [if_neg]
    unfold similarity
    rw [hjmem]
    unfold simThreshold
    omega

set_option maxHeartbeats 1600000 in
lemma matching_idem (E : ExternalState) (hWF : WF E) :
    List.Perm (runMatching .incremental (pipelineCore .incremental E))
      ((runClusters .incremental (pipelineCore .incremental E)).map
        (fun c2 => (c2.label, lookupTid (runReconcile .incremental E).assigned c2.label))) := by
  show List.Perm (matching (runClusters .incremental (pipelineCore .incremental E))
    (pipelineCore .incremental E).topics
    (runDocs1 .incremental (pipelineCore .incremental E))) _
  unfold matching
  have hperm := List.perm_insertionSort pairRank
    (candPairs (runClusters .incremental (pipelineCore .incremental E))
      (pipelineCore .incremental E).topics
      (runDocs1 .incremental (pipelineCore .incremental E)))
  have hcandlab : (candPairs (runClusters .incremental (pipelineCore .incremental E))
      (pipelineCore .incremental E).topics
      (runDocs1 .incremental (pipelineCore .incremental E))).map CandPair.clusterLabel =
      (runClusters .incremental (pipelineCore .incremental E)).map Cluster.label := by
    rw [candPairs_idem E hWF, List.map_map]
    apply List.map_congr_left
    intro c2 _
    rfl
  have hcandtid : (candPairs (runClusters .incremental (pipelineCore .incremental E))
      (pipelineCore .incremental E).topics
      (runDocs1 .incremental (pipelineCore .incremental E))).map CandPair.topicId =
      (runLabelSet .incremental E).map
        (lookupTid (runReconcile .incremental E).assigned) := by
    rw [candPairs_idem E hWF, List.map_map, ← runLabelSet_idem E,
      ← runClusters_label_map .incremental (pipelineCore .incremental E), List.map_map]
    apply List.map_congr_left
    intro c2 _
    rfl
  have hnodc : ((List.insertionSort pairRank
      (candPairs (runClusters .incremental (pipelineCore .incremental E))
        (pipelineCore .incremental E).topics
        (runDocs1 .incremental (pipelineCore .incremental E)))).map
      CandPair.clusterLabel).Nodup := by
    rw [List.Perm.nodup_iff (hperm.map CandPair.clusterLabel), hcandlab,
      runClusters_label_map]
    exact nodup_runLabelSet _ _
  have hnodt : ((List.insertionSort pairRank
      (candPairs (runClusters .incremental (pipelineCore .incremental E))
        (pipelineCore .incremental E).topics
        (runDocs1 .incremental (pipelineCore .incremental E)))).map
      CandPair.topicId).Nodup := by
    rw [List.Perm.nodup_iff (hperm.map CandPair.topicId), hcandtid]
    apply List.Nodup.map_on
    · intro x hx y hy hxy
      have hpx := labelSet_assigned .incremental E x hx
      have hpy := labelSet_assigned .incremental E y hy
      have hpair := nodup_map_inj_on (runAssigned_snd_nodup .incremental E) hpx hpy hxy
      exact congrArg Prod.fst hpair
    · exact nodup_runLabelSet _ _
  rw [sweep_all_of_compat _ [] [] hnodc hnodt
    (fun p _ => ⟨List.not_mem_nil _, List.not_mem_nil _⟩)]
  refine (hperm.map _).trans (List.Perm.of_eq ?_)
  rw [candPairs_idem E hWF, List.map_map]
  apply List.map_congr_left
  intro c2 _
  rfl

set_option maxHeartbeats 1600000 in
lemma mem_matching_idem (E : ExternalState) (hWF : WF E) {l tid : Nat} :
    (l, tid) ∈ runMatching .incremental (pipelineCore .incremental E) ↔
      l ∈ runLabelSet .incremental E ∧
        tid = lookupTid (runReconcile .incremental E).assigned l := by
  rw [List.Perm.mem_iff (matching_idem E hWF), List.mem_map]
  constructor
  · rintro ⟨c2, hc2, heq⟩
    have h1 : c2.label = l := congrArg Prod.fst heq
    have h2 : lookupTid (runReconcile .incremental E).assigned c2.label = tid :=
      congrArg Prod.snd heq
    have hlab : c2.label ∈ runLabelSet .incremental (pipelineCore .incremental E) := by
      rw [← runClusters_label_map]
      exact List.mem_map_of_mem _ hc2
    rw [runLabelSet_idem] at hlab
    exact ⟨h1 ▸ hlab, by rw [← h2, h1]⟩
  · rintro ⟨hl, rfl⟩
    refine ⟨mkCluster (runBatch .incremental (pipelineCore .incremental E))
      (runRvecs .incremental (pipelineCore .incremental E))
      (runDocs1 .incremental (pipelineCore .incremental E)) l,
      (mem_runClusters .incremental (pipelineCore .incremental E) _).mpr
        ⟨l, by rw [runLabelSet_idem]; exact hl, rfl⟩, rfl⟩

set_option maxHeartbeats 1600000 in
lemma unmatched2_nil (E : ExternalState) (hWF : WF E) :
    unmatchedClusters (runMatching .incremental (pipelineCore .incremental E))
      (runClusters .incremental (pipelineCore .incremental E)) = [] := by
  unfold unmatchedClusters
  rw [List.filter_eq_nil_iff]
  intro c2 hc2
  have hlab : c2.label ∈ runLabelSet .incremental E := by
    have h := List.mem_map_of_mem Cluster.label hc2
    rw [runClusters_label_map, runLabelSet_idem] at h
    exact h
  have hpair : (c2.label, lookupTid (runReconcile .incremental E).assigned c2.label) ∈
      runMatching .incremental (pipelineCore .incremental E) :=
    (mem_matching_idem E hWF).mpr ⟨hlab, rfl⟩
  intro hnone
  rw [Option.isNone_iff_eq_none, List.find?_eq_none] at hnone
  have := hnone _ hpair
  simp at this

set_option maxHeartbeats 1600000 in
lemma assigned2_eq (E : ExternalState) (hWF : WF E) :
    (runReconcile .incremental (pipelineCore .incremental E)).assigned =
      runMatching .incremental (pipelineCore .incremental E) := by
  rw [runAssigned_eq2, unmatched2_nil E hWF]
  simp

set_option maxHeartbeats 1600000 in
lemma topics2_eq (E : ExternalState) (hWF : WF E) :
    (runReconcile .incremental (pipelineCore .incremental E)).topics =
      (runReconcile .incremental E).topics := by
  rw [runTopics_eq .incremental (pipelineCore .incremental E), unmatched2_nil E hWF]
  simp only [List.enum_nil, List.map_nil, List.append_nil]
  have hpt : ∀ t ∈ (runReconcile .incremental E).topics,
      updateTopicWith (runMatching .incremental (pipelineCore .incremental E))
        (runClusters .incremental (pipelineCore .incremental E)) t = t := by
    intro t ht
    by_cases hcnt : 0 < t.document_count
    · obtain ⟨l, tid, c, hA, htid, hcCS, hcl, hkw, hname, hcount⟩ :=
        runTopics_active .incremental E t ht hcnt
      obtain ⟨l2, hl2, rfl⟩ := (mem_runClusters .incremental E c).mp hcCS
      have hl2l : l2 = l := hcl
      subst hl2l
      have hlLS : l2 ∈ runLabelSet .incremental E := hl2
      have htau : lookupTid (runReconcile .incremental E).assigned l2 = tid :=
        lookupTid_spec hA
      have hpair : (l2, t.id) ∈ runMatching .incremental (pipelineCore .incremental E) :=
        (mem_matching_idem E hWF).mpr ⟨hlLS, by rw [htid]; exact htau.symm⟩
      have hfind : (runMatching .incremental (pipelineCore .incremental E)).find?
          (fun q => q.2 == t.id) = some (l2, t.id) :=
        find?_snd_of_nodup (matching_snd_nodup _ _ _) hpair
      have hc2mem : mkCluster (runBatch .incremental (pipelineCore .incremental E))
          (runRvecs .incremental (pipelineCore .incremental E))
          (runDocs1 .incremental (pipelineCore .incremental E)) l2 ∈
          runClusters .incremental (pipelineCore .incremental E) :=
        (mem_runClusters _ _ _).mpr ⟨l2, by rw [runLabelSet_idem]; exact hlLS, rfl⟩
      have hfc : (runClusters .incremental (pipelineCore .incremental E)).find?
          (fun c2 => c2.label == (l2, t.id).1) =
          some (mkCluster (runBatch .incremental (pipelineCore .incremental E))
            (runRvecs .incremental (pipelineCore .incremental E))
            (runDocs1 .incremental (pipelineCore .incremental E)) l2) :=
        clusters_find_of_mem hc2mem rfl
      rw [updateTopicWith_of_some hfind hfc]
      apply refreshTopic_eq_self
      · show topicName (topicKeywords (membersOf (runBatch .incremental
          (pipelineCore .incremental E)) (runRvecs .incremental (pipelineCore .incremental E))
          l2) (runDocs1 .incremental (pipelineCore .incremental E))) = t.name
        rw [keywords2_eq E l2]
        exact hname.symm
      · show topicKeywords (membersOf (runBatch .incremental (pipelineCore .incremental E))
          (runRvecs .incremental (pipelineCore .incremental E)) l2)
          (runDocs1 .incremental (pipelineCore .incremental E)) = t.keywords
        rw [keywords2_eq E l2]
        exact hkw.symm
      · show (membersOf (runBatch .incremental (pipelineCore .incremental E))
          (runRvecs .incremental (pipelineCore .incremental E)) l2).length = t.document_count
        rw [membersOf_idem, List.length_map]
        exact hcount.symm
    · have h0 : t.document_count = 0 := Nat.eq_zero_of_not_pos hcnt
      have hfind : (runMatching .incremental (pipelineCore .incremental E)).find?
          (fun q => q.2 == t.id) = none := by
        rw [List.find?_eq_none]
        intro q hq
        have hq2 := (@mem_matching_idem E hWF q.1 q.2).mp
          (by rwa [Prod.mk.eta])
        obtain ⟨hqLS, hqtid⟩ := hq2
        intro hbeq
        have hqt : q.2 = t.id := by simpa using hbeq
        obtain ⟨t1, ht1T, htid1, hkw1x, hname1, hcnt1⟩ :=
          topicFor_label .incremental E q.1 hqLS
        have hteq : t1 = t :=
          nodup_map_inj_on (runTopics_ids_nodup .incremental E hWF) ht1T ht
            (by rw [htid1, ← hqtid, hqt])
        have hpos : 0 < t.document_count := by
          rw [← hteq, hcnt1]
          exact membersOf_length_pos .incremental E q.1 hqLS
        omega
      rw [updateTopicWith_of_none hfind]
      exact dormant_eq_self h0
  have hmap : (pipelineCore .incremental E).topics.map
      (updateTopicWith (runMatching .incremental (pipelineCore .incremental E))
        (runClusters .incremental (pipelineCore .incremental E))) =
      (pipelineCore .incremental E).topics.map (fun t => t) :=
    List.map_congr_left hpt
  rw [hmap]
  exact List.map_id' _

set_option maxHeartbeats 1600000 in
lemma docs2_idem (E : ExternalState) (hWF : WF E) :
    runDocs2 .incremental (pipelineCore .incremental E) =
      (pipelineCore .incremental E).docs := by
  rw [runDocs2_eq, runDocs1_idem]
  have hpt : ∀ d2 ∈ (pipelineCore .incremental E).docs,
      assignDoc (runRvecs .incremental (pipelineCore .incremental E))
        (runReconcile .incremental (pipelineCore .incremental E)).assigned d2 = d2 := by
    intro d2 hd2
    have hd2m : d2 ∈ (runDocs1 .incremental E).map
        (assignDoc (runRvecs .incremental E) (runReconcile .incremental E).assigned) := hd2
    obtain ⟨d1, hd1, rfl⟩ := List.mem_map.mp hd2m
    cases hemb : (assignDoc (runRvecs .incremental E)
        (runReconcile .incremental E).assigned d1).embedding with
    | none => exact assignDoc_of_emb_none hemb
    | some v =>
      have hembd1 : d1.embedding = some v := by
        rw [← (assignDoc_fields (runRvecs .incremental E)
          (runReconcile .incremental E).assigned d1).2.2.1]
        exact hemb
      rw [assignDoc_of_emb_some (by rw [hemb]; rfl)]
      have hlab2 : labelOfVec (runRvecs .incremental (pipelineCore .incremental E))
          (reduceVec (embOf (assignDoc (runRvecs .incremental E)
            (runReconcile .incremental E).assigned d1))) =
          labelOfVec (runRvecs .incremental E) (reduceVec (embOf d1)) := by
        rw [runRvecs_idem, embOf_assign]
      have htop1 : (assignDoc (runRvecs .incremental E)
          (runReconcile .incremental E).assigned d1).topic_id =
          ((labelOfVec (runRvecs .incremental E) (reduceVec (embOf d1))).bind
            (fun l => ((((runReconcile .incremental E).assigned).find?
              (fun p => p.1 == l)).map (fun p => p.2)))) := by
        rw [assignDoc_of_emb_some (by rw [hembd1]; rfl)]
      have hbind : ((labelOfVec (runRvecs .incremental (pipelineCore .incremental E))
          (reduceVec (embOf (assignDoc (runRvecs .incremental E)
            (runReconcile .incremental E).assigned d1)))).bind
            (fun l => ((((runReconcile .incremental (pipelineCore .incremental E)).assigned).find?
              (fun p => p.1 == l)).map (fun p => p.2)))) =
          (assignDoc (runRvecs .incremental E)
            (runReconcile .incremental E).assigned d1).topic_id := by
        rw [hlab2, htop1]
        cases hlabv : labelOfVec (runRvecs .incremental E) (reduceVec (embOf d1)) with
        | none => rfl
        | some l =>
          have hbatch : d1 ∈ runBatch .incremental E := by
            unfold runBatch batchOf
            rw [List.mem_filter]
            exact ⟨hd1, by rw [hembd1]; rfl⟩
          have hlLS : l ∈ runLabelSet .incremental E :=
            (mem_runLabelSet .incremental E l).mpr ⟨d1, hbatch, hlabv⟩
          have hf1 : (((runReconcile .incremental E).assigned).find?
              (fun p => p.1 == l)) =
              some (l, lookupTid (runReconcile .incremental E).assigned l) :=
            find?_fst_of_nodup (runAssigned_fst_nodup _ _)
              (labelSet_assigned .incremental E l hlLS)
          have hf2 : (((runReconcile .incremental (pipelineCore .incremental E)).assigned).find?
              (fun p => p.1 == l)) =
              some (l, lookupTid (runReconcile .incremental E).assigned l) := by
            rw [assigned2_eq E hWF]
            exact find?_fst_of_nodup (matching_fst_nodup _ _ _)
              ((mem_matching_idem E hWF).mpr ⟨hlLS, rfl⟩)
          rw [Option.some_bind, Option.some_bind, hf1, hf2]
      rw [hbind]
  have hmap : (pipelineCore .incremental E).docs.map
      (assignDoc (runRvecs .incremental (pipelineCore .incremental E))
        (runReconcile .incremental (pipelineCore .incremental E)).assigned) =
      (pipelineCore .incremental E).docs.map (fun d => d) :=
    List.map_congr_left hpt
  rw [hmap]
  exact List.map_id' _

set_option maxHeartbeats 1600000 in
lemma temporal2_idem (E : ExternalState) (hWF : WF E) :
    (pipelineCore .incremental (pipelineCore .incremental E)).temporal =
      (pipelineCore .incremental E).temporal := by
  rw [(pipelineCore_fields .incremental (pipelineCore .incremental E)).2.2]
  rw [topics2_eq E hWF, docs2_idem E hWF]
  have hdocs : (pipelineCore .incremental E).docs = runDocs2 .incremental E := rfl
  rw [hdocs]
  have hT : (pipelineCore .incremental E).temporal =
      E.temporal.filter (fun e =>
        decide (¬ e.topic_id ∈ activeIds (runReconcile .incremental E).topics))
      ++ (activeIds (runReconcile .incremental E).topics).flatMap
          (fun tid => seriesFor tid (runDocs2 .incremental E)) :=
    (pipelineCore_fields .incremental E).2.2
  rw [hT, List.filter_append, filter_idem, filter_not_mem_flatMap_series, List.append_nil]

/-- C2: retraining is idempotent on an unchanged corpus — a second incremental
run from the state committed by a successful incremental run succeeds and
commits exactly the same state (same topics with the same ids, keywords and
counts, same document assignments, same temporal data points). -/
theorem retrain_idempotent_spec (pOk : Bool) (E E1 : ExternalState) (hWF : WF E)
    (hok : pipelineCommit .incremental pOk E = .ok E1) :
    pipelineCommit .incremental pOk E1 = .ok E1 := by
  obtain ⟨rfl, h2, rfl⟩ := pipelineCommit_ok hok
  have hlen : 2 ≤ (runBatch .incremental (pipelineCore .incremental E)).length := by
    rw [runBatch_idem, List.length_map]
    exact h2
  have hfinal : pipelineCore .incremental (pipelineCore .incremental E) =
      pipelineCore .incremental E := by
    have hd : (pipelineCore .incremental (pipelineCore .incremental E)).docs =
        (pipelineCore .incremental E).docs := docs2_idem E hWF
    have ht : (pipelineCore .incremental (pipelineCore .incremental E)).topics =
        (pipelineCore .incremental E).topics := topics2_eq E hWF
    have htm : (pipelineCore .incremental (pipelineCore .incremental E)).temporal =
        (pipelineCore .incremental E).temporal := temporal2_idem E hWF
    calc pipelineCore .incremental (pipelineCore .incremental E)
        = { docs := (pipelineCore .incremental (pipelineCore .incremental E)).docs,
            topics := (pipelineCore .incremental (pipelineCore .incremental E)).topics,
            temporal := (pipelineCore .incremental (pipelineCore .incremental E)).temporal } :=
          rfl
      _ = { docs := (pipelineCore .incremental E).docs,
            topics := (pipelineCore .incremental E).topics,
            temporal := (pipelineCore .incremental E).temporal } := by rw [hd, ht, htm]
      _ = pipelineCore .incremental E := rfl
  unfold pipelineCommit
  rw [if_pos hlen, if_pos rfl, hfinal]

/-- Witness for C2: a second incremental retrain on the concrete committed
state reproduces it exactly. -/
theorem retrain_idempotent_spec_witness :
    pipelineCommit .incremental true (pipelineCore .incremental exState) =
      .ok (pipelineCore .incremental exState) :=
  retrain_idempotent_spec true exState (pipelineCore .incremental exState) (by decide) rfl
